import Mathlib

/-!
Verification development for the Vranic particle-merging kernel
(src/Merging/MergingVranic.cpp) and the Monte-Carlo radiation kernel
(src/Radiation/RadiationMonteCarlo.cpp) of the Smilei repository.

C doubles are modelled as real numbers; machine operations whose C
behaviour is undefined (casting a NaN or infinite double to an unsigned
integer) are modelled by `Option`, with `none` standing for the
undefined execution.
-/

set_option maxRecDepth 4000

namespace Smilei

noncomputable section

/-- A triple of doubles, used for momenta, positions and field samples. -/
@[ext]
structure V3 where
  x : ℝ
  y : ℝ
  z : ℝ

/-- Dot product written exactly as the componentwise sums in the source. -/
def dotV (a b : V3) : ℝ := a.x * b.x + a.y * b.y + a.z * b.z

/-- Norm of a momentum: `sqrt(px*px + py*py + pz*pz)` (MergingVranic.cpp:155). -/
def normV (a : V3) : ℝ := Real.sqrt (dotV a a)

/-- The C library function `atan2(y, x)` (C99 semantics on real inputs). -/
def atan2 (y x : ℝ) : ℝ :=
  if 0 < x then Real.arctan (y / x)
  else if x < 0 then
    (if 0 ≤ y then Real.arctan (y / x) + Real.pi else Real.arctan (y / x) - Real.pi)
  else
    (if 0 < y then Real.pi / 2 else if y < 0 then -(Real.pi / 2) else 0)

/-! ### Packet-level merge (MergingVranic.cpp lines 374-458)

A packet is four particles of one momentum bin, each a momentum
vector together with a weight.  `d` is the bin's direction unit
vector `cell_vec` (the vector d of Vranic et al.). -/

/-- `total_weight` accumulated at MergingVranic.cpp:392. -/
def totalWeight (P : Fin 4 → V3 × ℝ) : ℝ :=
  (P 0).2 + (P 1).2 + (P 2).2 + (P 3).2

/-- `total_momentum` accumulated at MergingVranic.cpp:395-397
(momentum times weight, componentwise). -/
def totalMomentum (P : Fin 4 → V3 × ℝ) : V3 :=
  ⟨(P 0).1.x * (P 0).2 + (P 1).1.x * (P 1).2 + (P 2).1.x * (P 2).2 + (P 3).1.x * (P 3).2,
   (P 0).1.y * (P 0).2 + (P 1).1.y * (P 1).2 + (P 2).1.y * (P 2).2 + (P 3).1.y * (P 3).2,
   (P 0).1.z * (P 0).2 + (P 1).1.z * (P 1).2 + (P 2).1.z * (P 2).2 + (P 3).1.z * (P 3).2⟩

/-- `total_energy` accumulated at MergingVranic.cpp:400-402: the sum of
`sqrt(1 + p·p)` over the four particles, with no weight factor. -/
def totalEnergy (P : Fin 4 → V3 × ℝ) : ℝ :=
  Real.sqrt (1 + dotV (P 0).1 (P 0).1) + Real.sqrt (1 + dotV (P 1).1 (P 1).1) +
  Real.sqrt (1 + dotV (P 2).1 (P 2).1) + Real.sqrt (1 + dotV (P 3).1 (P 3).1)

/-- `new_energy` (ε_a of Vranic et al.), MergingVranic.cpp:406. -/
def newEnergy (P : Fin 4 → V3 × ℝ) : ℝ := totalEnergy P / totalWeight P

/-- `new_momentum_norm` (p_a of Vranic et al.), MergingVranic.cpp:409. -/
def newMomentumNorm (P : Fin 4 → V3 × ℝ) : ℝ :=
  Real.sqrt (newEnergy P * newEnergy P - 1)

/-- `total_momentum_norm`, MergingVranic.cpp:411-413. -/
def totalMomentumNorm (P : Fin 4 → V3 × ℝ) : ℝ :=
  normV (totalMomentum P)

/-- `omega`, MergingVranic.cpp:416. -/
def omegaOf (P : Fin 4 → V3 × ℝ) : ℝ :=
  Real.arccos (totalMomentumNorm P / (totalWeight P * newMomentumNorm P))

/-- Unit vector `e1 = p_t / |p_t|`, MergingVranic.cpp:421-423. -/
def e1of (P : Fin 4 → V3 × ℝ) : V3 :=
  ⟨(totalMomentum P).x / totalMomentumNorm P,
   (totalMomentum P).y / totalMomentumNorm P,
   (totalMomentum P).z / totalMomentumNorm P⟩

/-- Vector `e2`, transcribed from the expanded bilinear form at
MergingVranic.cpp:427-435. -/
def e2of (P : Fin 4 → V3 × ℝ) (d : V3) : V3 :=
  ⟨(e1of P).y * (e1of P).y * d.x -
     (e1of P).x * ((e1of P).y * d.y + (e1of P).z * d.z) + (e1of P).z * (e1of P).z * d.x,
   (e1of P).z * (e1of P).z * d.y -
     (e1of P).y * ((e1of P).z * d.z + (e1of P).x * d.x) + (e1of P).x * (e1of P).x * d.y,
   (e1of P).x * (e1of P).x * d.z -
     (e1of P).z * ((e1of P).x * d.x + (e1of P).y * d.y) + (e1of P).y * (e1of P).y * d.z⟩

/-- The 4-to-2 merge of one packet, MergingVranic.cpp:374-452: the two
surviving particles, each carrying weight `0.5 * total_weight` and
momentum `p_a (cos ω e1 ± sin ω e2)`. -/
def mergePacket (P : Fin 4 → V3 × ℝ) (d : V3) : (V3 × ℝ) × (V3 × ℝ) :=
  ((⟨newMomentumNorm P * (Real.cos (omegaOf P) * (e1of P).x + Real.sin (omegaOf P) * (e2of P d).x),
     newMomentumNorm P * (Real.cos (omegaOf P) * (e1of P).y + Real.sin (omegaOf P) * (e2of P d).y),
     newMomentumNorm P * (Real.cos (omegaOf P) * (e1of P).z + Real.sin (omegaOf P) * (e2of P d).z)⟩,
    0.5 * totalWeight P),
   (⟨newMomentumNorm P * (Real.cos (omegaOf P) * (e1of P).x - Real.sin (omegaOf P) * (e2of P d).x),
     newMomentumNorm P * (Real.cos (omegaOf P) * (e1of P).y - Real.sin (omegaOf P) * (e2of P d).y),
     newMomentumNorm P * (Real.cos (omegaOf P) * (e1of P).z - Real.sin (omegaOf P) * (e2of P d).z)⟩,
    0.5 * totalWeight P))

/-- Weighted momentum carried by the two survivors of a merge. -/
def survivorsWeightedMomentum (r : (V3 × ℝ) × (V3 × ℝ)) : V3 :=
  ⟨r.1.2 * r.1.1.x + r.2.2 * r.2.1.x,
   r.1.2 * r.1.1.y + r.2.2 * r.2.1.y,
   r.1.2 * r.1.1.z + r.2.2 * r.2.1.z⟩

/-- Weighted energy carried by the two survivors of a merge. -/
def survivorsWeightedEnergy (r : (V3 × ℝ) × (V3 × ℝ)) : ℝ :=
  r.1.2 * Real.sqrt (1 + dotV r.1.1 r.1.1) + r.2.2 * Real.sqrt (1 + dotV r.2.1 r.2.1)

/-- Weighted energy carried into a merge by the four input particles. -/
def inputWeightedEnergy (P : Fin 4 → V3 × ℝ) : ℝ :=
  (P 0).2 * Real.sqrt (1 + dotV (P 0).1 (P 0).1) +
  (P 1).2 * Real.sqrt (1 + dotV (P 1).1 (P 1).1) +
  (P 2).2 * Real.sqrt (1 + dotV (P 2).1 (P 2).1) +
  (P 3).2 * Real.sqrt (1 + dotV (P 3).1 (P 3).1)

/-- Claim C4.  Vranic merger weight conservation: each survivor of a merged
packet receives weight `0.5*(w0+w1+w2+w3)`, and the survivors' total weight
equals the four input weights' sum, exactly. -/
theorem mergePacket_weight_conservation (P : Fin 4 → V3 × ℝ) (d : V3) :
    (mergePacket P d).1.2 = 0.5 * ((P 0).2 + (P 1).2 + (P 2).2 + (P 3).2) ∧
    (mergePacket P d).2.2 = 0.5 * ((P 0).2 + (P 1).2 + (P 2).2 + (P 3).2) ∧
    (mergePacket P d).1.2 + (mergePacket P d).2.2 =
      (P 0).2 + (P 1).2 + (P 2).2 + (P 3).2 := by
  refine ⟨rfl, rfl, ?_⟩
  show 0.5 * totalWeight P + 0.5 * totalWeight P = _
  unfold totalWeight
  ring

/-- Claim C3.  Vranic merger momentum conservation: whenever the packet is
nondegenerate (nonzero total momentum, and the `acos` argument inside the
merge is in its domain so that the C computation is real-valued), the
survivors' weighted momentum equals the inputs' weighted momentum exactly;
the `± sin ω` contributions of the two survivors cancel for any bin
direction `d`. -/
theorem mergePacket_momentum_conservation (P : Fin 4 → V3 × ℝ) (d : V3)
    (hn : totalMomentumNorm P ≠ 0)
    (hpos : 0 < totalWeight P * newMomentumNorm P)
    (harg : totalMomentumNorm P ≤ totalWeight P * newMomentumNorm P) :
    survivorsWeightedMomentum (mergePacket P d) = totalMomentum P := by
  have hwpa : totalWeight P * newMomentumNorm P ≠ 0 := ne_of_gt hpos
  have h0 : (0:ℝ) ≤ totalMomentumNorm P := Real.sqrt_nonneg _
  have hcos : Real.cos (omegaOf P) =
      totalMomentumNorm P / (totalWeight P * newMomentumNorm P) := by
    unfold omegaOf
    exact Real.cos_arccos (by have := div_nonneg h0 hpos.le; linarith)
      ((div_le_one hpos).mpr harg)
  have key : ∀ a : ℝ,
      totalWeight P * newMomentumNorm P * Real.cos (omegaOf P) *
        (a / totalMomentumNorm P) = a := by
    intro a
    rw [hcos]
    field_simp
  have pack : ∀ (pa c s wt e1c e2c : ℝ),
      0.5 * wt * (pa * (c * e1c + s * e2c)) + 0.5 * wt * (pa * (c * e1c - s * e2c)) =
        wt * pa * c * e1c := by
    intros pa c s wt e1c e2c
    ring
  refine V3.ext ?_ ?_ ?_
  · show 0.5 * totalWeight P *
        (newMomentumNorm P * (Real.cos (omegaOf P) * (e1of P).x + Real.sin (omegaOf P) * (e2of P d).x)) +
      0.5 * totalWeight P *
        (newMomentumNorm P * (Real.cos (omegaOf P) * (e1of P).x - Real.sin (omegaOf P) * (e2of P d).x)) =
      (totalMomentum P).x
    rw [pack]
    exact key (totalMomentum P).x
  · show 0.5 * totalWeight P *
        (newMomentumNorm P * (Real.cos (omegaOf P) * (e1of P).y + Real.sin (omegaOf P) * (e2of P d).y)) +
      0.5 * totalWeight P *
        (newMomentumNorm P * (Real.cos (omegaOf P) * (e1of P).y - Real.sin (omegaOf P) * (e2of P d).y)) =
      (totalMomentum P).y
    rw [pack]
    exact key (totalMomentum P).y
  · show 0.5 * totalWeight P *
        (newMomentumNorm P * (Real.cos (omegaOf P) * (e1of P).z + Real.sin (omegaOf P) * (e2of P d).z)) +
      0.5 * totalWeight P *
        (newMomentumNorm P * (Real.cos (omegaOf P) * (e1of P).z - Real.sin (omegaOf P) * (e2of P d).z)) =
      (totalMomentum P).z
    rw [pack]
    exact key (totalMomentum P).z

/-- A concrete packet: four particles of momentum (1,0,0) and weight 1. -/
def packetA : Fin 4 → V3 × ℝ := fun _ => (⟨1, 0, 0⟩, 1)

lemma packetA_totalWeight : totalWeight packetA = 4 := by
  unfold totalWeight packetA
  norm_num

lemma packetA_totalMomentum : totalMomentum packetA = ⟨4, 0, 0⟩ := by
  unfold totalMomentum packetA
  refine V3.ext ?_ ?_ ?_ <;> norm_num

lemma packetA_totalMomentumNorm : totalMomentumNorm packetA = 4 := by
  unfold totalMomentumNorm
  rw [packetA_totalMomentum]
  unfold normV dotV
  rw [show (4:ℝ) * 4 + 0 * 0 + 0 * 0 = 4 * 4 by norm_num]
  exact Real.sqrt_mul_self (by norm_num)

lemma packetA_totalEnergy : totalEnergy packetA = 4 * Real.sqrt 2 := by
  unfold totalEnergy packetA dotV
  rw [show (1:ℝ) + (1 * 1 + 0 * 0 + 0 * 0) = 2 by norm_num]
  ring

lemma packetA_newMomentumNorm : newMomentumNorm packetA = 1 := by
  unfold newMomentumNorm newEnergy
  rw [packetA_totalEnergy, packetA_totalWeight]
  rw [show 4 * Real.sqrt 2 / 4 = Real.sqrt 2 by ring]
  rw [Real.mul_self_sqrt (by norm_num : (0:ℝ) ≤ 2)]
  rw [show (2:ℝ) - 1 = 1 by norm_num]
  exact Real.sqrt_one

/-- Witness for claim C3: the hypotheses hold and the conclusion follows at
the concrete packet `packetA` with bin direction (1,0,0). -/
theorem mergePacket_momentum_conservation_witness :
    totalMomentumNorm packetA ≠ 0 ∧
    0 < totalWeight packetA * newMomentumNorm packetA ∧
    totalMomentumNorm packetA ≤ totalWeight packetA * newMomentumNorm packetA ∧
    survivorsWeightedMomentum (mergePacket packetA ⟨1, 0, 0⟩) = totalMomentum packetA :=
  ⟨by rw [packetA_totalMomentumNorm]; norm_num,
   by rw [packetA_totalWeight, packetA_newMomentumNorm]; norm_num,
   by rw [packetA_totalMomentumNorm, packetA_totalWeight, packetA_newMomentumNorm]; norm_num,
   mergePacket_momentum_conservation packetA ⟨1, 0, 0⟩
     (by rw [packetA_totalMomentumNorm]; norm_num)
     (by rw [packetA_totalWeight, packetA_newMomentumNorm]; norm_num)
     (by rw [packetA_totalMomentumNorm, packetA_totalWeight, packetA_newMomentumNorm]; norm_num)⟩

lemma e1_dot_e2 (P : Fin 4 → V3 × ℝ) (d : V3) :
    dotV (e1of P) (e2of P d) = 0 := by
  unfold e2of dotV
  ring

lemma e2_dot_e2 (P : Fin 4 → V3 × ℝ) (d : V3) :
    dotV (e2of P d) (e2of P d) =
      dotV (e1of P) (e1of P) *
        (dotV (e1of P) (e1of P) * dotV d d - dotV (e1of P) d * dotV (e1of P) d) := by
  unfold e2of dotV
  ring

lemma e1_unit (P : Fin 4 → V3 × ℝ) (hn : totalMomentumNorm P ≠ 0) :
    dotV (e1of P) (e1of P) = 1 := by
  have htm : totalMomentumNorm P * totalMomentumNorm P =
      dotV (totalMomentum P) (totalMomentum P) := by
    unfold totalMomentumNorm normV
    refine Real.mul_self_sqrt ?_
    unfold dotV
    nlinarith [sq_nonneg (totalMomentum P).x, sq_nonneg (totalMomentum P).y,
      sq_nonneg (totalMomentum P).z]
  unfold e1of dotV
  field_simp
  unfold dotV at htm
  linarith

/-- Claim C1, amended.  The survivors' weighted energy equals the quantity the
source actually accumulates, `Σ √(1+pₖ·pₖ)` without weights; and this holds
only under a degeneracy: either the bin direction is a unit vector orthogonal
to `e1`, or `|p_t| = w_t · p_a` (so `sin ω = 0`). -/
theorem mergePacket_energy_conservation_amended (P : Fin 4 → V3 × ℝ) (d : V3)
    (hn : totalMomentumNorm P ≠ 0)
    (hw : 0 < totalWeight P)
    (hE : 1 ≤ newEnergy P)
    (harg : totalMomentumNorm P ≤ totalWeight P * newMomentumNorm P)
    (hdeg : (dotV d d = 1 ∧ dotV (e1of P) d = 0) ∨
            totalMomentumNorm P = totalWeight P * newMomentumNorm P) :
    survivorsWeightedEnergy (mergePacket P d) = totalEnergy P := by
  have hn0 : 0 < totalMomentumNorm P :=
    lt_of_le_of_ne (Real.sqrt_nonneg _) (Ne.symm hn)
  have hwpa : 0 < totalWeight P * newMomentumNorm P := lt_of_lt_of_le hn0 harg
  have hE0 : (0:ℝ) ≤ newEnergy P := le_trans zero_le_one hE
  have hpa2 : newMomentumNorm P * newMomentumNorm P =
      newEnergy P * newEnergy P - 1 := by
    unfold newMomentumNorm
    refine Real.mul_self_sqrt ?_
    nlinarith
  have hcos : Real.cos (omegaOf P) =
      totalMomentumNorm P / (totalWeight P * newMomentumNorm P) := by
    unfold omegaOf
    exact Real.cos_arccos
      (by have := div_nonneg hn0.le hwpa.le; linarith)
      ((div_le_one hwpa).mpr harg)
  have hargle : totalMomentumNorm P / (totalWeight P * newMomentumNorm P) ≤ 1 :=
    (div_le_one hwpa).mpr harg
  have harg0 : 0 ≤ totalMomentumNorm P / (totalWeight P * newMomentumNorm P) :=
    div_nonneg hn0.le hwpa.le
  have hsin2 : Real.sin (omegaOf P) * Real.sin (omegaOf P) =
      1 - totalMomentumNorm P / (totalWeight P * newMomentumNorm P) *
        (totalMomentumNorm P / (totalWeight P * newMomentumNorm P)) := by
    unfold omegaOf
    rw [Real.sin_arccos]
    rw [show (1:ℝ) - totalMomentumNorm P / (totalWeight P * newMomentumNorm P) *
        (totalMomentumNorm P / (totalWeight P * newMomentumNorm P)) =
        1 - (totalMomentumNorm P / (totalWeight P * newMomentumNorm P)) ^ 2 by ring]
    refine Real.mul_self_sqrt ?_
    nlinarith
  -- the common factor cos²ω + sin²ω · |e2|² equals 1 in both degenerate cases
  have hfac : Real.cos (omegaOf P) * Real.cos (omegaOf P) +
      Real.sin (omegaOf P) * Real.sin (omegaOf P) * dotV (e2of P d) (e2of P d) = 1 := by
    rcases hdeg with ⟨hdd, hde⟩ | hsat
    · have h22 : dotV (e2of P d) (e2of P d) = 1 := by
        rw [e2_dot_e2, e1_unit P hn, hdd, hde]
        ring
      rw [h22, hcos, hsin2]
      ring
    · have hc1 : Real.cos (omegaOf P) = 1 := by
        rw [hcos, hsat]
        exact div_self hwpa.ne'
      have hs0 : Real.sin (omegaOf P) * Real.sin (omegaOf P) = 0 := by
        rw [hsin2, hsat, div_self hwpa.ne']
        ring
      rw [hc1, hs0]
      ring
  -- both survivors carry energy ε_a
  have he1 := e1_unit P hn
  have he12 := e1_dot_e2 P d
  unfold dotV at he1 he12 hfac
  have hplus : Real.sqrt (1 +
      ((newMomentumNorm P * (Real.cos (omegaOf P) * (e1of P).x + Real.sin (omegaOf P) * (e2of P d).x)) *
         (newMomentumNorm P * (Real.cos (omegaOf P) * (e1of P).x + Real.sin (omegaOf P) * (e2of P d).x)) +
       (newMomentumNorm P * (Real.cos (omegaOf P) * (e1of P).y + Real.sin (omegaOf P) * (e2of P d).y)) *
         (newMomentumNorm P * (Real.cos (omegaOf P) * (e1of P).y + Real.sin (omegaOf P) * (e2of P d).y)) +
       (newMomentumNorm P * (Real.cos (omegaOf P) * (e1of P).z + Real.sin (omegaOf P) * (e2of P d).z)) *
         (newMomentumNorm P * (Real.cos (omegaOf P) * (e1of P).z + Real.sin (omegaOf P) * (e2of P d).z)))) =
      newEnergy P := by
    have hin : 1 +
        ((newMomentumNorm P * (Real.cos (omegaOf P) * (e1of P).x + Real.sin (omegaOf P) * (e2of P d).x)) *
           (newMomentumNorm P * (Real.cos (omegaOf P) * (e1of P).x + Real.sin (omegaOf P) * (e2of P d).x)) +
         (newMomentumNorm P * (Real.cos (omegaOf P) * (e1of P).y + Real.sin (omegaOf P) * (e2of P d).y)) *
           (newMomentumNorm P * (Real.cos (omegaOf P) * (e1of P).y + Real.sin (omegaOf P) * (e2of P d).y)) +
         (newMomentumNorm P * (Real.cos (omegaOf P) * (e1of P).z + Real.sin (omegaOf P) * (e2of P d).z)) *
           (newMomentumNorm P * (Real.cos (omegaOf P) * (e1of P).z + Real.sin (omegaOf P) * (e2of P d).z))) =
        newEnergy P * newEnergy P := by
      linear_combination
        (newMomentumNorm P * newMomentumNorm P *
          (Real.cos (omegaOf P) * Real.cos (omegaOf P))) * he1 +
        (2 * newMomentumNorm P * newMomentumNorm P *
          Real.cos (omegaOf P) * Real.sin (omegaOf P)) * he12 +
        (newMomentumNorm P * newMomentumNorm P) * hfac + hpa2
    rw [hin]
    exact Real.sqrt_mul_self hE0
  have hminus : Real.sqrt (1 +
      ((newMomentumNorm P * (Real.cos (omegaOf P) * (e1of P).x - Real.sin (omegaOf P) * (e2of P d).x)) *
         (newMomentumNorm P * (Real.cos (omegaOf P) * (e1of P).x - Real.sin (omegaOf P) * (e2of P d).x)) +
       (newMomentumNorm P * (Real.cos (omegaOf P) * (e1of P).y - Real.sin (omegaOf P) * (e2of P d).y)) *
         (newMomentumNorm P * (Real.cos (omegaOf P) * (e1of P).y - Real.sin (omegaOf P) * (e2of P d).y)) +
       (newMomentumNorm P * (Real.cos (omegaOf P) * (e1of P).z - Real.sin (omegaOf P) * (e2of P d).z)) *
         (newMomentumNorm P * (Real.cos (omegaOf P) * (e1of P).z - Real.sin (omegaOf P) * (e2of P d).z)))) =
      newEnergy P := by
    have hin : 1 +
        ((newMomentumNorm P * (Real.cos (omegaOf P) * (e1of P).x - Real.sin (omegaOf P) * (e2of P d).x)) *
           (newMomentumNorm P * (Real.cos (omegaOf P) * (e1of P).x - Real.sin (omegaOf P) * (e2of P d).x)) +
         (newMomentumNorm P * (Real.cos (omegaOf P) * (e1of P).y - Real.sin (omegaOf P) * (e2of P d).y)) *
           (newMomentumNorm P * (Real.cos (omegaOf P) * (e1of P).y - Real.sin (omegaOf P) * (e2of P d).y)) +
         (newMomentumNorm P * (Real.cos (omegaOf P) * (e1of P).z - Real.sin (omegaOf P) * (e2of P d).z)) *
           (newMomentumNorm P * (Real.cos (omegaOf P) * (e1of P).z - Real.sin (omegaOf P) * (e2of P d).z))) =
        newEnergy P * newEnergy P := by
      linear_combination
        (newMomentumNorm P * newMomentumNorm P *
          (Real.cos (omegaOf P) * Real.cos (omegaOf P))) * he1 -
        (2 * newMomentumNorm P * newMomentumNorm P *
          Real.cos (omegaOf P) * Real.sin (omegaOf P)) * he12 +
        (newMomentumNorm P * newMomentumNorm P) * hfac + hpa2
    rw [hin]
    exact Real.sqrt_mul_self hE0
  unfold survivorsWeightedEnergy mergePacket dotV
  dsimp only
  rw [hplus, hminus]
  unfold newEnergy
  field_simp
  ring

lemma packetA_newEnergy : newEnergy packetA = Real.sqrt 2 := by
  unfold newEnergy
  rw [packetA_totalEnergy, packetA_totalWeight]
  ring

/-- Witness for the amended claim C1 at the concrete packet `packetA`
(four equal particles), which satisfies the saturation degeneracy. -/
theorem mergePacket_energy_conservation_amended_witness :
    totalMomentumNorm packetA ≠ 0 ∧ 0 < totalWeight packetA ∧ 1 ≤ newEnergy packetA ∧
    totalMomentumNorm packetA ≤ totalWeight packetA * newMomentumNorm packetA ∧
    ((dotV ⟨1, 0, 0⟩ ⟨1, 0, 0⟩ = 1 ∧ dotV (e1of packetA) ⟨1, 0, 0⟩ = 0) ∨
      totalMomentumNorm packetA = totalWeight packetA * newMomentumNorm packetA) ∧
    survivorsWeightedEnergy (mergePacket packetA ⟨1, 0, 0⟩) = totalEnergy packetA := by
  have h1 : totalMomentumNorm packetA ≠ 0 := by rw [packetA_totalMomentumNorm]; norm_num
  have h2 : 0 < totalWeight packetA := by rw [packetA_totalWeight]; norm_num
  have h3 : 1 ≤ newEnergy packetA := by
    rw [packetA_newEnergy]
    exact (Real.le_sqrt (by norm_num) (by norm_num)).mpr (by norm_num)
  have h4 : totalMomentumNorm packetA ≤ totalWeight packetA * newMomentumNorm packetA := by
    rw [packetA_totalMomentumNorm, packetA_totalWeight, packetA_newMomentumNorm]; norm_num
  have h5 : totalMomentumNorm packetA = totalWeight packetA * newMomentumNorm packetA := by
    rw [packetA_totalMomentumNorm, packetA_totalWeight, packetA_newMomentumNorm]; norm_num
  exact ⟨h1, h2, h3, h4, Or.inr h5,
    mergePacket_energy_conservation_amended packetA ⟨1, 0, 0⟩ h1 h2 h3 h4 (Or.inr h5)⟩

/-- A concrete packet with identical momenta but one differing weight. -/
def packetB : Fin 4 → V3 × ℝ := fun k => (⟨1, 0, 0⟩, if k.val = 3 then 1 / 2 else 1)

lemma packetB_apply0 : packetB 0 = (⟨1, 0, 0⟩, 1) := rfl

lemma packetB_apply1 : packetB 1 = (⟨1, 0, 0⟩, 1) := rfl

lemma packetB_apply2 : packetB 2 = (⟨1, 0, 0⟩, 1) := rfl

lemma packetB_apply3 : packetB 3 = (⟨1, 0, 0⟩, 1 / 2) := rfl

/-- The direction vector `cell_vec` of the momentum bin holding particles of
momentum (1,0,0) in a 5-particle call whose angular ranges are
θ ∈ [0, π/2], φ ∈ [0, π/6] (bin centre after the 1% inflation). -/
def binDirB : V3 :=
  ⟨Real.cos (101 * Real.pi / 6000) * Real.cos (101 * Real.pi / 2000),
   Real.cos (101 * Real.pi / 6000) * Real.sin (101 * Real.pi / 2000),
   Real.sin (101 * Real.pi / 6000)⟩

lemma packetB_totalWeight : totalWeight packetB = 7 / 2 := by
  unfold totalWeight
  rw [packetB_apply0, packetB_apply1, packetB_apply2, packetB_apply3]
  norm_num

lemma packetB_totalMomentum : totalMomentum packetB = ⟨7 / 2, 0, 0⟩ := by
  unfold totalMomentum
  rw [packetB_apply0, packetB_apply1, packetB_apply2, packetB_apply3]
  refine V3.ext ?_ ?_ ?_ <;> norm_num

lemma packetB_totalMomentumNorm : totalMomentumNorm packetB = 7 / 2 := by
  unfold totalMomentumNorm
  rw [packetB_totalMomentum]
  unfold normV dotV
  rw [show (7:ℝ) / 2 * (7 / 2) + 0 * 0 + 0 * 0 = 7 / 2 * (7 / 2) by norm_num]
  exact Real.sqrt_mul_self (by norm_num)

lemma packetB_totalEnergy : totalEnergy packetB = 4 * Real.sqrt 2 := by
  unfold totalEnergy
  rw [packetB_apply0, packetB_apply1, packetB_apply2, packetB_apply3]
  unfold dotV
  dsimp only
  rw [show (1:ℝ) + (1 * 1 + 0 * 0 + 0 * 0) = 2 by norm_num]
  ring

lemma packetB_newE2 : newEnergy packetB * newEnergy packetB - 1 = 79 / 49 := by
  unfold newEnergy
  rw [packetB_totalEnergy, packetB_totalWeight]
  have h2 : Real.sqrt 2 * Real.sqrt 2 = 2 := Real.mul_self_sqrt (by norm_num)
  linear_combination (64 / 49) * h2

lemma packetB_pa : newMomentumNorm packetB = Real.sqrt (79 / 49) := by
  unfold newMomentumNorm
  rw [show newEnergy packetB * newEnergy packetB - 1 = 79 / 49 from packetB_newE2]

lemma packetB_pa2 : newMomentumNorm packetB * newMomentumNorm packetB = 79 / 49 := by
  rw [packetB_pa]
  exact Real.mul_self_sqrt (by norm_num)

lemma packetB_e1 : e1of packetB = ⟨1, 0, 0⟩ := by
  unfold e1of
  rw [packetB_totalMomentum, packetB_totalMomentumNorm]
  refine V3.ext ?_ ?_ ?_ <;> norm_num

lemma packetB_e2 : e2of packetB binDirB = ⟨0, binDirB.y, binDirB.z⟩ := by
  unfold e2of
  rw [packetB_e1]
  refine V3.ext ?_ ?_ ?_ <;> dsimp only <;> ring

lemma packetB_cos : Real.cos (omegaOf packetB) = 1 / Real.sqrt (79 / 49) := by
  have hge : (1:ℝ) ≤ Real.sqrt (79 / 49) :=
    (Real.le_sqrt (by norm_num) (by norm_num)).mpr (by norm_num)
  have hpos : (0:ℝ) < Real.sqrt (79 / 49) := lt_of_lt_of_le one_pos hge
  have hargval : totalMomentumNorm packetB /
      (totalWeight packetB * newMomentumNorm packetB) = 1 / Real.sqrt (79 / 49) := by
    rw [packetB_totalMomentumNorm, packetB_totalWeight, packetB_pa]
    field_simp
    ring
  unfold omegaOf
  rw [hargval]
  refine Real.cos_arccos ?_ ?_
  · have hnn : (0:ℝ) ≤ 1 / Real.sqrt (79 / 49) := by positivity
    linarith
  · rw [div_le_one hpos]
    exact hge

lemma packetB_cos2 : Real.cos (omegaOf packetB) * Real.cos (omegaOf packetB) = 49 / 79 := by
  rw [packetB_cos]
  rw [div_mul_div_comm, one_mul, Real.mul_self_sqrt (by norm_num : (0:ℝ) ≤ 79 / 49)]
  norm_num

lemma packetB_sin2 : Real.sin (omegaOf packetB) * Real.sin (omegaOf packetB) = 30 / 79 := by
  have hge : (1:ℝ) ≤ Real.sqrt (79 / 49) :=
    (Real.le_sqrt (by norm_num) (by norm_num)).mpr (by norm_num)
  have hpos : (0:ℝ) < Real.sqrt (79 / 49) := lt_of_lt_of_le one_pos hge
  have hq : (1 / Real.sqrt (79 / 49)) ^ 2 = 49 / 79 := by
    rw [div_pow, one_pow, Real.sq_sqrt (by norm_num : (0:ℝ) ≤ 79 / 49)]
    norm_num
  have hargval : totalMomentumNorm packetB /
      (totalWeight packetB * newMomentumNorm packetB) = 1 / Real.sqrt (79 / 49) := by
    rw [packetB_totalMomentumNorm, packetB_totalWeight, packetB_pa]
    field_simp
    ring
  unfold omegaOf
  rw [hargval, Real.sin_arccos]
  rw [Real.mul_self_sqrt (by rw [hq]; norm_num)]
  rw [hq]
  norm_num

/-- Claim C1, counterexample.  At the concrete packet `packetB` (four
particles of momentum (1,0,0) and weights 1, 1, 1, 1/2) with the bin
direction `binDirB` actually produced by the kernel's discretisation, the
survivors' weighted energy differs from the inputs' weighted energy: the
source accumulates `total_energy` without weights (MergingVranic.cpp:400)
and `e2` is not unit, so the claimed conservation law fails. -/
theorem mergePacket_energy_not_conserved :
    survivorsWeightedEnergy (mergePacket packetB binDirB) ≠ inputWeightedEnergy packetB := by
  have hpi := Real.pi_pos
  have hy1 : 0 < Real.cos (101 * Real.pi / 6000) := by
    apply Real.cos_pos_of_mem_Ioo
    constructor
    · nlinarith
    · nlinarith
  have hy2 : 0 < Real.sin (101 * Real.pi / 2000) := by
    apply Real.sin_pos_of_pos_of_lt_pi
    · positivity
    · nlinarith
  have hyy : 0 < binDirB.y := by
    unfold binDirB
    exact mul_pos hy1 hy2
  have hK : 0 < binDirB.y * binDirB.y + binDirB.z * binDirB.z := by
    nlinarith [mul_pos hyy hyy, mul_self_nonneg binDirB.z]
  have hpp := packetB_pa2
  have hc2 := packetB_cos2
  have hs2 := packetB_sin2
  have hout : survivorsWeightedEnergy (mergePacket packetB binDirB) =
      7 / 2 * Real.sqrt (2 + 30 / 49 * (binDirB.y * binDirB.y + binDirB.z * binDirB.z)) := by
    unfold survivorsWeightedEnergy mergePacket dotV
    rw [packetB_e1, packetB_e2, packetB_totalWeight]
    dsimp only
    rw [show 1 +
        (newMomentumNorm packetB * (Real.cos (omegaOf packetB) * 1 + Real.sin (omegaOf packetB) * 0) *
           (newMomentumNorm packetB * (Real.cos (omegaOf packetB) * 1 + Real.sin (omegaOf packetB) * 0)) +
         newMomentumNorm packetB * (Real.cos (omegaOf packetB) * 0 + Real.sin (omegaOf packetB) * binDirB.y) *
           (newMomentumNorm packetB * (Real.cos (omegaOf packetB) * 0 + Real.sin (omegaOf packetB) * binDirB.y)) +
         newMomentumNorm packetB * (Real.cos (omegaOf packetB) * 0 + Real.sin (omegaOf packetB) * binDirB.z) *
           (newMomentumNorm packetB * (Real.cos (omegaOf packetB) * 0 + Real.sin (omegaOf packetB) * binDirB.z))) =
        2 + 30 / 49 * (binDirB.y * binDirB.y + binDirB.z * binDirB.z) from by
      linear_combination
        (Real.cos (omegaOf packetB) * Real.cos (omegaOf packetB) +
          Real.sin (omegaOf packetB) * Real.sin (omegaOf packetB) *
            (binDirB.y * binDirB.y + binDirB.z * binDirB.z)) * hpp +
        (79 / 49) * hc2 +
        (79 / 49) * (binDirB.y * binDirB.y + binDirB.z * binDirB.z) * hs2]
    rw [show 1 +
        (newMomentumNorm packetB * (Real.cos (omegaOf packetB) * 1 - Real.sin (omegaOf packetB) * 0) *
           (newMomentumNorm packetB * (Real.cos (omegaOf packetB) * 1 - Real.sin (omegaOf packetB) * 0)) +
         newMomentumNorm packetB * (Real.cos (omegaOf packetB) * 0 - Real.sin (omegaOf packetB) * binDirB.y) *
           (newMomentumNorm packetB * (Real.cos (omegaOf packetB) * 0 - Real.sin (omegaOf packetB) * binDirB.y)) +
         newMomentumNorm packetB * (Real.cos (omegaOf packetB) * 0 - Real.sin (omegaOf packetB) * binDirB.z) *
           (newMomentumNorm packetB * (Real.cos (omegaOf packetB) * 0 - Real.sin (omegaOf packetB) * binDirB.z))) =
        2 + 30 / 49 * (binDirB.y * binDirB.y + binDirB.z * binDirB.z) from by
      linear_combination
        (Real.cos (omegaOf packetB) * Real.cos (omegaOf packetB) +
          Real.sin (omegaOf packetB) * Real.sin (omegaOf packetB) *
            (binDirB.y * binDirB.y + binDirB.z * binDirB.z)) * hpp +
        (79 / 49) * hc2 +
        (79 / 49) * (binDirB.y * binDirB.y + binDirB.z * binDirB.z) * hs2]
    ring
  have hinp : inputWeightedEnergy packetB = 7 / 2 * Real.sqrt 2 := by
    unfold inputWeightedEnergy
    rw [packetB_apply0, packetB_apply1, packetB_apply2, packetB_apply3]
    unfold dotV
    dsimp only
    rw [show (1:ℝ) + (1 * 1 + 0 * 0 + 0 * 0) = 2 by norm_num]
    ring
  rw [hout, hinp]
  refine ne_of_gt ?_
  have hlt : Real.sqrt 2 <
      Real.sqrt (2 + 30 / 49 * (binDirB.y * binDirB.y + binDirB.z * binDirB.z)) := by
    apply Real.sqrt_lt_sqrt (by norm_num)
    nlinarith
  nlinarith [hlt]

/-! ### The full merging kernel, MergingVranic.cpp lines 44-469

The particle store is modelled by three parallel lists (momentum, weight,
cell_keys); `istart`/`iend` delimit the half-open processed range.  The
`dimensions_` member passed in by the caller is overwritten to 5×5×5 at
entry (lines 92-94), so the three `dims` arguments below are never read. -/

/-- State of the three mutated particle columns. -/
structure MergeState where
  mom : List V3
  wgt : List ℝ
  keys : List ℤ

/-- Momentum norm of particle `i` (MergingVranic.cpp:155-157, 176-178, 252-254). -/
def rOf (mom : List V3) (i : ℕ) : ℝ := normV (mom.getD i ⟨0, 0, 0⟩)

/-- `atan2(p_y, p_x)` of particle `i` (MergingVranic.cpp:162, 184). -/
def thetaOf (mom : List V3) (i : ℕ) : ℝ :=
  atan2 (mom.getD i ⟨0, 0, 0⟩).y (mom.getD i ⟨0, 0, 0⟩).x

/-- `asin(p_z / |p|)` of particle `i` (MergingVranic.cpp:163, 183). -/
def phiOf (mom : List V3) (i : ℕ) : ℝ :=
  Real.arcsin ((mom.getD i ⟨0, 0, 0⟩).z / rOf mom i)

/-- Sequential `fmin` accumulation over particles `istart..istart+n-1`,
seeded with particle `istart` (MergingVranic.cpp:159-192). -/
def foldMinR (f : ℕ → ℝ) (istart n : ℕ) : ℝ :=
  (List.range (n - 1)).foldl (fun acc j => min acc (f (istart + 1 + j))) (f istart)

/-- Sequential `fmax` accumulation, as `foldMinR`. -/
def foldMaxR (f : ℕ → ℝ) (istart n : ℕ) : ℝ :=
  (List.range (n - 1)).foldl (fun acc j => max acc (f (istart + 1 + j))) (f istart)

/-- Axis minimum. -/
def axisMin (f : ℕ → ℝ) (istart n : ℕ) : ℝ := foldMinR f istart n

/-- Axis maximum after the 1% inflation `max += (max - min)*0.01`
(MergingVranic.cpp:195-197). -/
def axisMaxInfl (f : ℕ → ℝ) (istart n : ℕ) : ℝ :=
  foldMaxR f istart n + (foldMaxR f istart n - foldMinR f istart n) * 0.01

/-- Axis step before the collapse test: `(max - min) / 5`
(MergingVranic.cpp:203-205, with `dimensions_` already forced to 5). -/
def axisDeltaRaw (f : ℕ → ℝ) (istart n : ℕ) : ℝ :=
  (axisMaxInfl f istart n - axisMin f istart n) / 5

/-- Axis step after the collapse test `delta < 1e-10 → delta = 0`
(MergingVranic.cpp:208-219). -/
def axisDelta (f : ℕ → ℝ) (istart n : ℕ) : ℝ :=
  if axisDeltaRaw f istart n < 1e-10 then 0 else axisDeltaRaw f istart n

/-- Axis dimension after the collapse test (`5`, or `1` if collapsed). -/
def axisDim (f : ℕ → ℝ) (istart n : ℕ) : ℕ :=
  if axisDeltaRaw f istart n < 1e-10 then 1 else 5

/-- One axis of the per-particle bin computation
`(unsigned int)((value - min) / delta)` (MergingVranic.cpp:257-259).
For a collapsed axis the source divides by `delta = 0.0`, producing a NaN
(value = min) or an infinity (value > min); converting either to
`unsigned int` is undefined behaviour in C++, modelled by `none`. -/
def axisIndex (v vmin delta : ℝ) : Option ℕ :=
  if delta = 0 then none else some (Int.toNat ⌊(v - vmin) / delta⌋)

/-- Flattened momentum-cell index of particle `i`
(MergingVranic.cpp:257-263, using the post-collapse dimensions). -/
def binIndexOf (mom : List V3) (istart n i : ℕ) : Option ℕ :=
  (axisIndex (rOf mom i) (axisMin (rOf mom) istart n) (axisDelta (rOf mom) istart n)).bind fun mri =>
  (axisIndex (thetaOf mom i) (axisMin (thetaOf mom) istart n)
      (axisDelta (thetaOf mom) istart n)).bind fun ti =>
  (axisIndex (phiOf mom i) (axisMin (phiOf mom) istart n)
      (axisDelta (phiOf mom) istart n)).map fun pj =>
    mri * (axisDim (thetaOf mom) istart n * axisDim (phiOf mom) istart n) +
      ti * axisDim (phiOf mom) istart n + pj

/-- Collects the per-particle bin indices; `none` as soon as one particle's
computation is undefined. -/
def collectIdx : List (Option ℕ) → Option (List ℕ)
  | [] => some []
  | none :: _ => none
  | some i :: rest => (collectIdx rest).map fun l => i :: l

/-- The bin-direction table `cell_vec` (MergingVranic.cpp:222-235), filled
at the bin centres for the post-collapse dimensions. -/
def cellVecList (mom : List V3) (istart n : ℕ) : List V3 :=
  (List.range (axisDim (thetaOf mom) istart n)).flatMap fun ti =>
    (List.range (axisDim (phiOf mom) istart n)).map fun pj =>
      ⟨Real.cos (axisMin (phiOf mom) istart n + ((pj : ℝ) + 0.5) * axisDelta (phiOf mom) istart n) *
         Real.cos (axisMin (thetaOf mom) istart n + ((ti : ℝ) + 0.5) * axisDelta (thetaOf mom) istart n),
       Real.cos (axisMin (phiOf mom) istart n + ((pj : ℝ) + 0.5) * axisDelta (phiOf mom) istart n) *
         Real.sin (axisMin (thetaOf mom) istart n + ((ti : ℝ) + 0.5) * axisDelta (thetaOf mom) istart n),
       Real.sin (axisMin (phiOf mom) istart n + ((pj : ℝ) + 0.5) * axisDelta (phiOf mom) istart n)⟩

/-- Histogram of particles per momentum cell over the `5*5*5` cells
allocated before the collapse test (MergingVranic.cpp:135, 269-273). -/
def bumpCounts (idxs : List ℕ) : List ℕ :=
  idxs.foldl (fun c i => c.set i (c.getD i 0 + 1)) (List.replicate (5 * 5 * 5) 0)

/-- Exclusive prefix sums `momentum_cell_particle_index`
(MergingVranic.cpp:277-286). -/
def cellStarts (counts : List ℕ) : List ℕ :=
  (counts.take (5 * 5 * 5 - 1)).scanl (fun a b => a + b) 0

/-- The stable counting-sort scatter (MergingVranic.cpp:292-308): returns
the sorted particle-index array and the re-incremented per-cell counts. -/
def scatterFold (idxs : List ℕ) (istart : ℕ) (starts : List ℕ) : List ℕ × List ℕ :=
  (List.range idxs.length).foldl
    (fun (st : List ℕ × List ℕ) ip =>
      (st.1.set (starts.getD (idxs.getD ip 0) 0 + st.2.getD (idxs.getD ip 0) 0) (istart + ip),
       st.2.set (idxs.getD ip 0) (st.2.getD (idxs.getD ip 0) 0 + 1)))
    (List.replicate idxs.length 0, List.replicate (5 * 5 * 5) 0)

/-- First index used by the mark-dead loop of packet `ipack`
(MergingVranic.cpp:455-456): the loop variable `ip` already ranges over
`[ipack*4+2, ipack*4+4)` and the subscript adds `ipack*4` again. -/
def killIndexFirst (base ipack : ℕ) : ℕ := base + ipack * 4 + (ipack * 4 + 2)

/-- Second index used by the mark-dead loop of packet `ipack`. -/
def killIndexSecond (base ipack : ℕ) : ℕ := base + ipack * 4 + (ipack * 4 + 3)

/-- All positions (relative to the sorted array) whose particles are marked
dead for a bin whose packet loop runs `npack` packets. -/
def killIndices (base npack : ℕ) : List ℕ :=
  (List.range npack).flatMap fun ipack => [killIndexFirst base ipack, killIndexSecond base ipack]

/-- Processes one packet of one bin (MergingVranic.cpp:372-458): overwrite
the packet's first two particles with the merge result, mark the particles
at the (buggy) kill indices dead. -/
def mergePacketAt (cellVecL : List V3) (base : ℕ) (sorted : List ℕ) (icc : ℕ)
    (st : MergeState) (ipack : ℕ) : MergeState :=
  { mom := ((st.mom.set (sorted.getD (base + ipack * 4) 0)
        (mergePacket (fun k =>
          (st.mom.getD (sorted.getD (base + ipack * 4 + k.val) 0) ⟨0, 0, 0⟩,
           st.wgt.getD (sorted.getD (base + ipack * 4 + k.val) 0) 0))
          (cellVecL.getD icc ⟨0, 0, 0⟩)).1.1).set
        (sorted.getD (base + ipack * 4 + 1) 0)
        (mergePacket (fun k =>
          (st.mom.getD (sorted.getD (base + ipack * 4 + k.val) 0) ⟨0, 0, 0⟩,
           st.wgt.getD (sorted.getD (base + ipack * 4 + k.val) 0) 0))
          (cellVecL.getD icc ⟨0, 0, 0⟩)).2.1),
    wgt := ((st.wgt.set (sorted.getD (base + ipack * 4) 0)
        (mergePacket (fun k =>
          (st.mom.getD (sorted.getD (base + ipack * 4 + k.val) 0) ⟨0, 0, 0⟩,
           st.wgt.getD (sorted.getD (base + ipack * 4 + k.val) 0) 0))
          (cellVecL.getD icc ⟨0, 0, 0⟩)).1.2).set
        (sorted.getD (base + ipack * 4 + 1) 0)
        (mergePacket (fun k =>
          (st.mom.getD (sorted.getD (base + ipack * 4 + k.val) 0) ⟨0, 0, 0⟩,
           st.wgt.getD (sorted.getD (base + ipack * 4 + k.val) 0) 0))
          (cellVecL.getD icc ⟨0, 0, 0⟩)).2.2),
    keys := (st.keys.set (sorted.getD (killIndexFirst base ipack) 0) (-1)).set
        (sorted.getD (killIndexSecond base ipack) 0) (-1) }

/-- Processes one momentum bin (MergingVranic.cpp:357-460): bins holding
fewer than four particles are skipped, otherwise `count/4` packets merge. -/
def mergeOneBin (cellVecL : List V3) (starts counts sorted : List ℕ)
    (st : MergeState) (pr : ℕ × ℕ) : MergeState :=
  if 4 ≤ counts.getD pr.1 0 then
    (List.range (counts.getD pr.1 0 / 4)).foldl
      (mergePacketAt cellVecL (starts.getD pr.1 0) sorted pr.2) st
  else st

/-- The `(ic, icc)` pairs visited by the triple merge loop
(MergingVranic.cpp:347-355): `ic = mr_i * (5*5) + icc` uses the
`momentum_angular_cells` value computed before the collapse test, while the
loop bounds use the post-collapse dimensions. -/
def binPairs (d0 d1 d2 : ℕ) : List (ℕ × ℕ) :=
  (List.range d0).flatMap fun mri =>
    (List.range d1).flatMap fun ti =>
      (List.range d2).map fun pj => (mri * (5 * 5) + (ti * d2 + pj), ti * d2 + pj)

/-- The merge phase: fold over all visited bins. -/
def mergeBins (cellVecL : List V3) (starts counts sorted : List ℕ)
    (d0 d1 d2 : ℕ) (st : MergeState) : MergeState :=
  (binPairs d0 d1 d2).foldl (mergeOneBin cellVecL starts counts sorted) st

/-- The complete `MergingVranic::operator()` (MergingVranic.cpp:44-469).
`dims0 dims1 dims2` model the configured `dimensions_` member, which the
kernel overwrites with 5, 5, 5 before any use (lines 92-94).  The result is
`none` when the execution reaches C++ undefined behaviour (a collapsed-axis
division by zero feeding a float-to-unsigned cast). -/
def mergingVranicRun (dims0 dims1 dims2 threshold istart iend : ℕ)
    (mom : List V3) (wgt : List ℝ) (keys : List ℤ) : Option MergeState :=
  if threshold < iend - istart then
    match collectIdx ((List.range (iend - istart)).map fun ip =>
        binIndexOf mom istart (iend - istart) (istart + ip)) with
    | none => none
    | some idxs =>
      some (mergeBins (cellVecList mom istart (iend - istart))
        (cellStarts (bumpCounts idxs))
        (scatterFold idxs istart (cellStarts (bumpCounts idxs))).2
        (scatterFold idxs istart (cellStarts (bumpCounts idxs))).1
        (axisDim (rOf mom) istart (iend - istart))
        (axisDim (thetaOf mom) istart (iend - istart))
        (axisDim (phiOf mom) istart (iend - istart))
        ⟨mom, wgt, keys⟩)
  else some ⟨mom, wgt, keys⟩

/-- Claim C2 (code evaluation).  For a bin whose packet loop runs
`npack = 2` (a bin of 8 to 11 particles) starting at sorted position 0, the
mark-dead loop touches sorted positions 2, 3, 10 and 11 - positions 10 and
11 lie outside the two packets - instead of the packet members 2, 3, 6, 7
required by the claim. -/
theorem killIndices_npack_two :
    killIndices 0 2 = [2, 3, 10, 11] ∧ killIndices 0 2 ≠ [2, 3, 6, 7] := by
  constructor <;> decide

/-- Claim C10.  The configured `dimensions_` are never read: two runs that
differ only in the configured dimensions return identical particle arrays. -/
theorem mergingVranic_dims_ignored (dims0 dims1 dims2 dims0' dims1' dims2'
    threshold istart iend : ℕ) (mom : List V3) (wgt : List ℝ) (keys : List ℤ) :
    mergingVranicRun dims0 dims1 dims2 threshold istart iend mom wgt keys =
    mergingVranicRun dims0' dims1' dims2' threshold istart iend mom wgt keys := rfl

lemma foldl_keeps_rel {α : Type} {β : Type} (R : β → β → Prop) (f : β → α → β)
    (hf : ∀ s s' a, R s s' → R (f s a) (f s' a)) :
    ∀ (l : List α) (s s' : β), R s s' → R (l.foldl f s) (l.foldl f s') := by
  intro l
  induction l with
  | nil => intro s s' h; simpa using h
  | cons a t ih =>
    intro s s' h
    simp only [List.foldl_cons]
    exact ih _ _ (hf _ _ _ h)

/-- Claim C9, amended.  The merger never reads `cell_keys`: runs that differ
only in the incoming `cell_keys` column produce identical momentum and
weight columns, so particles marked dead on entry participate in binning
and merging exactly like live ones. -/
theorem mergingVranic_ignores_cell_keys (dims0 dims1 dims2 threshold istart iend : ℕ)
    (mom : List V3) (wgt : List ℝ) (keys keys' : List ℤ) :
    (mergingVranicRun dims0 dims1 dims2 threshold istart iend mom wgt keys).map
        (fun s => (s.mom, s.wgt)) =
    (mergingVranicRun dims0 dims1 dims2 threshold istart iend mom wgt keys').map
        (fun s => (s.mom, s.wgt)) := by
  have hpacket : ∀ (c : List V3) (b : ℕ) (srt : List ℕ) (icc : ℕ)
      (t t' : MergeState) (i : ℕ),
      (t.mom = t'.mom ∧ t.wgt = t'.wgt) →
      ((mergePacketAt c b srt icc t i).mom = (mergePacketAt c b srt icc t' i).mom ∧
       (mergePacketAt c b srt icc t i).wgt = (mergePacketAt c b srt icc t' i).wgt) := by
    intro c b srt icc t t' i h
    obtain ⟨hm, hw⟩ := h
    constructor <;> simp only [mergePacketAt, hm, hw]
  have hbin : ∀ (c : List V3) (starts counts srt : List ℕ)
      (s s' : MergeState) (pr : ℕ × ℕ),
      (s.mom = s'.mom ∧ s.wgt = s'.wgt) →
      ((mergeOneBin c starts counts srt s pr).mom = (mergeOneBin c starts counts srt s' pr).mom ∧
       (mergeOneBin c starts counts srt s pr).wgt = (mergeOneBin c starts counts srt s' pr).wgt) := by
    intro c starts counts srt s s' pr h
    unfold mergeOneBin
    by_cases h4 : 4 ≤ counts.getD pr.1 0
    · simp only [if_pos h4]
      exact foldl_keeps_rel (fun t t' : MergeState => t.mom = t'.mom ∧ t.wgt = t'.wgt)
        (mergePacketAt c (starts.getD pr.1 0) srt pr.2) (hpacket c _ srt pr.2) _ _ _ h
    · simp only [if_neg h4]
      exact h
  unfold mergingVranicRun
  by_cases hth : threshold < iend - istart
  · simp only [if_pos hth]
    rcases hc : collectIdx ((List.range (iend - istart)).map fun ip =>
        binIndexOf mom istart (iend - istart) (istart + ip)) with _ | idxs
    · rfl
    · have hrel := foldl_keeps_rel (fun t t' : MergeState => t.mom = t'.mom ∧ t.wgt = t'.wgt)
        (mergeOneBin (cellVecList mom istart (iend - istart))
          (cellStarts (bumpCounts idxs))
          (scatterFold idxs istart (cellStarts (bumpCounts idxs))).2
          (scatterFold idxs istart (cellStarts (bumpCounts idxs))).1)
        (hbin _ _ _ _)
        (binPairs (axisDim (rOf mom) istart (iend - istart))
          (axisDim (thetaOf mom) istart (iend - istart))
          (axisDim (phiOf mom) istart (iend - istart)))
        ⟨mom, wgt, keys⟩ ⟨mom, wgt, keys'⟩ ⟨rfl, rfl⟩
      unfold mergeBins
      exact congrArg some (Prod.ext hrel.1 hrel.2)
  · simp only [if_neg hth]
    rfl

/-! ### Concrete runs of the merging kernel -/

/-- Five particles of identical momentum (1,0,0): every axis range is zero,
so all three axes collapse. -/
def momC8 : List V3 := [⟨1, 0, 0⟩, ⟨1, 0, 0⟩, ⟨1, 0, 0⟩, ⟨1, 0, 0⟩, ⟨1, 0, 0⟩]

def wgtC8 : List ℝ := [1, 1, 1, 1, 1]

def keysC8 : List ℤ := [0, 0, 0, 0, 0]

lemma rOf_momC8 (i : ℕ) (h : i < 5) : rOf momC8 i = 1 := by
  interval_cases i <;>
  · show normV ⟨1, 0, 0⟩ = 1
    unfold normV dotV
    rw [show (1:ℝ) * 1 + 0 * 0 + 0 * 0 = 1 by norm_num]
    exact Real.sqrt_one

lemma deltaRawC8 : axisDeltaRaw (rOf momC8) 0 5 = 0 := by
  unfold axisDeltaRaw axisMaxInfl axisMin foldMinR foldMaxR
  rw [show (5:ℕ) - 1 = 4 from rfl, show List.range 4 = [0, 1, 2, 3] from rfl]
  simp only [List.foldl_cons, List.foldl_nil]
  rw [rOf_momC8 0 (by norm_num), rOf_momC8 (0 + 1 + 0) (by norm_num),
    rOf_momC8 (0 + 1 + 1) (by norm_num), rOf_momC8 (0 + 1 + 2) (by norm_num),
    rOf_momC8 (0 + 1 + 3) (by norm_num)]
  norm_num

lemma deltaC8 : axisDelta (rOf momC8) 0 5 = 0 := by
  unfold axisDelta
  rw [deltaRawC8]
  norm_num

/-- Claim C8 (code evaluation).  On five particles of identical momentum
with threshold 0 - above the merging threshold, and the situation of the
spec's scenario S1 - every axis collapses, the bin-index computation
divides by `delta = 0`, and the float-to-unsigned cast of the result is
C++ undefined behaviour: the run produces no well-defined result, rather
than in-bounds indices. -/
theorem mergingVranic_collapse_undefined :
    mergingVranicRun 5 5 5 0 0 5 momC8 wgtC8 keysC8 = none := by
  unfold mergingVranicRun
  rw [if_pos (by norm_num : (0:ℕ) < 5 - 0)]
  have h0 : binIndexOf momC8 0 (5 - 0) (0 + 0) = none := by
    unfold binIndexOf
    rw [show axisIndex (rOf momC8 (0 + 0)) (axisMin (rOf momC8) 0 (5 - 0))
        (axisDelta (rOf momC8) 0 (5 - 0)) = none from by
      unfold axisIndex
      rw [show (5:ℕ) - 0 = 5 from rfl, deltaC8]
      exact if_pos rfl]
    rfl
  rw [show List.range (5 - 0) = [0, 1, 2, 3, 4] from rfl]
  simp only [List.map_cons, List.map_nil]
  rw [h0]
  rfl

/-- Five particles: four of momentum (1,0,0), one spreader of momentum
(0,√3,1) giving nonzero ranges on all three axes (no collapse). -/
def momC9 : List V3 := [⟨1, 0, 0⟩, ⟨1, 0, 0⟩, ⟨1, 0, 0⟩, ⟨1, 0, 0⟩, ⟨0, Real.sqrt 3, 1⟩]

def wgtC9 : List ℝ := [1, 1, 1, 1, 1]

/-- Particle 1 is marked dead on entry. -/
def keysC9 : List ℤ := [0, -1, 0, 0, 0]

lemma rOf_momC9_lt4 (i : ℕ) (h : i < 4) : rOf momC9 i = 1 := by
  interval_cases i <;>
  · show normV ⟨1, 0, 0⟩ = 1
    unfold normV dotV
    rw [show (1:ℝ) * 1 + 0 * 0 + 0 * 0 = 1 by norm_num]
    exact Real.sqrt_one

lemma rOf_momC9_4 : rOf momC9 4 = 2 := by
  show normV ⟨0, Real.sqrt 3, 1⟩ = 2
  unfold normV dotV
  rw [show (0:ℝ) * 0 + Real.sqrt 3 * Real.sqrt 3 + 1 * 1 = 2 * 2 from by
    rw [Real.mul_self_sqrt (by norm_num : (0:ℝ) ≤ 3)]; norm_num]
  exact Real.sqrt_mul_self (by norm_num)

lemma thetaOf_momC9_lt4 (i : ℕ) (h : i < 4) : thetaOf momC9 i = 0 := by
  interval_cases i <;>
  · show atan2 0 1 = 0
    unfold atan2
    rw [if_pos one_pos]
    norm_num [Real.arctan_zero]

lemma thetaOf_momC9_4 : thetaOf momC9 4 = Real.pi / 2 := by
  show atan2 (Real.sqrt 3) 0 = Real.pi / 2
  unfold atan2
  rw [if_neg (lt_irrefl 0), if_neg (lt_irrefl 0),
    if_pos (Real.sqrt_pos.mpr (by norm_num : (0:ℝ) < 3))]

lemma phiOf_momC9_lt4 (i : ℕ) (h : i < 4) : phiOf momC9 i = 0 := by
  have key : ∀ r : ℝ, Real.arcsin (0 / r) = 0 := fun r => by rw [zero_div, Real.arcsin_zero]
  interval_cases i <;> exact key _

lemma phiOf_momC9_4 : phiOf momC9 4 = Real.pi / 6 := by
  show Real.arcsin (1 / rOf momC9 4) = Real.pi / 6
  rw [rOf_momC9_4]
  rw [show (1:ℝ) / 2 = Real.sin (Real.pi / 6) from (Real.sin_pi_div_six).symm]
  exact Real.arcsin_sin (by nlinarith [Real.pi_pos]) (by nlinarith [Real.pi_pos])

lemma rMinC9 : foldMinR (rOf momC9) 0 5 = 1 := by
  unfold foldMinR
  rw [show (5:ℕ) - 1 = 4 from rfl, show List.range 4 = [0, 1, 2, 3] from rfl]
  simp only [List.foldl_cons, List.foldl_nil]
  rw [rOf_momC9_lt4 0 (by norm_num), rOf_momC9_lt4 (0 + 1 + 0) (by norm_num),
    rOf_momC9_lt4 (0 + 1 + 1) (by norm_num), rOf_momC9_lt4 (0 + 1 + 2) (by norm_num),
    show (0 + 1 + 3 : ℕ) = 4 from rfl, rOf_momC9_4]
  rw [min_self, min_self, min_self, min_eq_left (by norm_num : (1:ℝ) ≤ 2)]

lemma rMaxC9 : foldMaxR (rOf momC9) 0 5 = 2 := by
  unfold foldMaxR
  rw [show (5:ℕ) - 1 = 4 from rfl, show List.range 4 = [0, 1, 2, 3] from rfl]
  simp only [List.foldl_cons, List.foldl_nil]
  rw [rOf_momC9_lt4 0 (by norm_num), rOf_momC9_lt4 (0 + 1 + 0) (by norm_num),
    rOf_momC9_lt4 (0 + 1 + 1) (by norm_num), rOf_momC9_lt4 (0 + 1 + 2) (by norm_num),
    show (0 + 1 + 3 : ℕ) = 4 from rfl, rOf_momC9_4]
  rw [max_self, max_self, max_self, max_eq_right (by norm_num : (1:ℝ) ≤ 2)]

lemma tMinC9 : foldMinR (thetaOf momC9) 0 5 = 0 := by
  unfold foldMinR
  rw [show (5:ℕ) - 1 = 4 from rfl, show List.range 4 = [0, 1, 2, 3] from rfl]
  simp only [List.foldl_cons, List.foldl_nil]
  rw [thetaOf_momC9_lt4 0 (by norm_num), thetaOf_momC9_lt4 (0 + 1 + 0) (by norm_num),
    thetaOf_momC9_lt4 (0 + 1 + 1) (by norm_num), thetaOf_momC9_lt4 (0 + 1 + 2) (by norm_num),
    show (0 + 1 + 3 : ℕ) = 4 from rfl, thetaOf_momC9_4]
  rw [min_self, min_self, min_self, min_eq_left (by positivity)]

lemma tMaxC9 : foldMaxR (thetaOf momC9) 0 5 = Real.pi / 2 := by
  unfold foldMaxR
  rw [show (5:ℕ) - 1 = 4 from rfl, show List.range 4 = [0, 1, 2, 3] from rfl]
  simp only [List.foldl_cons, List.foldl_nil]
  rw [thetaOf_momC9_lt4 0 (by norm_num), thetaOf_momC9_lt4 (0 + 1 + 0) (by norm_num),
    thetaOf_momC9_lt4 (0 + 1 + 1) (by norm_num), thetaOf_momC9_lt4 (0 + 1 + 2) (by norm_num),
    show (0 + 1 + 3 : ℕ) = 4 from rfl, thetaOf_momC9_4]
  rw [max_self, max_self, max_self, max_eq_right (by positivity)]

lemma pMinC9 : foldMinR (phiOf momC9) 0 5 = 0 := by
  unfold foldMinR
  rw [show (5:ℕ) - 1 = 4 from rfl, show List.range 4 = [0, 1, 2, 3] from rfl]
  simp only [List.foldl_cons, List.foldl_nil]
  rw [phiOf_momC9_lt4 0 (by norm_num), phiOf_momC9_lt4 (0 + 1 + 0) (by norm_num),
    phiOf_momC9_lt4 (0 + 1 + 1) (by norm_num), phiOf_momC9_lt4 (0 + 1 + 2) (by norm_num),
    show (0 + 1 + 3 : ℕ) = 4 from rfl, phiOf_momC9_4]
  rw [min_self, min_self, min_self, min_eq_left (by positivity)]

lemma pMaxC9 : foldMaxR (phiOf momC9) 0 5 = Real.pi / 6 := by
  unfold foldMaxR
  rw [show (5:ℕ) - 1 = 4 from rfl, show List.range 4 = [0, 1, 2, 3] from rfl]
  simp only [List.foldl_cons, List.foldl_nil]
  rw [phiOf_momC9_lt4 0 (by norm_num), phiOf_momC9_lt4 (0 + 1 + 0) (by norm_num),
    phiOf_momC9_lt4 (0 + 1 + 1) (by norm_num), phiOf_momC9_lt4 (0 + 1 + 2) (by norm_num),
    show (0 + 1 + 3 : ℕ) = 4 from rfl, phiOf_momC9_4]
  rw [max_self, max_self, max_self, max_eq_right (by positivity)]

lemma minR_C9 : axisMin (rOf momC9) 0 5 = 1 := rMinC9

lemma deltaRawR_C9 : axisDeltaRaw (rOf momC9) 0 5 = 101 / 500 := by
  unfold axisDeltaRaw axisMaxInfl axisMin
  rw [rMinC9, rMaxC9]
  norm_num

lemma deltaR_C9 : axisDelta (rOf momC9) 0 5 = 101 / 500 := by
  unfold axisDelta
  rw [deltaRawR_C9, if_neg (by norm_num)]

lemma dimR_C9 : axisDim (rOf momC9) 0 5 = 5 := by
  unfold axisDim
  rw [deltaRawR_C9, if_neg (by norm_num)]

lemma minT_C9 : axisMin (thetaOf momC9) 0 5 = 0 := tMinC9

lemma deltaRawT_C9 : axisDeltaRaw (thetaOf momC9) 0 5 = 101 * Real.pi / 1000 := by
  unfold axisDeltaRaw axisMaxInfl axisMin
  rw [tMinC9, tMaxC9]
  rw [show (0.01 : ℝ) = 1 / 100 from by norm_num]
  ring

lemma deltaT_C9 : axisDelta (thetaOf momC9) 0 5 = 101 * Real.pi / 1000 := by
  unfold axisDelta
  rw [deltaRawT_C9, if_neg (by nlinarith [Real.pi_gt_three])]

lemma dimT_C9 : axisDim (thetaOf momC9) 0 5 = 5 := by
  unfold axisDim
  rw [deltaRawT_C9, if_neg (by nlinarith [Real.pi_gt_three])]

lemma minP_C9 : axisMin (phiOf momC9) 0 5 = 0 := pMinC9

lemma deltaRawP_C9 : axisDeltaRaw (phiOf momC9) 0 5 = 101 * Real.pi / 3000 := by
  unfold axisDeltaRaw axisMaxInfl axisMin
  rw [pMinC9, pMaxC9]
  rw [show (0.01 : ℝ) = 1 / 100 from by norm_num]
  ring

lemma deltaP_C9 : axisDelta (phiOf momC9) 0 5 = 101 * Real.pi / 3000 := by
  unfold axisDelta
  rw [deltaRawP_C9, if_neg (by nlinarith [Real.pi_gt_three])]

lemma dimP_C9 : axisDim (phiOf momC9) 0 5 = 5 := by
  unfold axisDim
  rw [deltaRawP_C9, if_neg (by nlinarith [Real.pi_gt_three])]

lemma binIdxC9_lt4 (i : ℕ) (h : i < 4) : binIndexOf momC9 0 5 i = some 0 := by
  unfold binIndexOf
  rw [minR_C9, deltaR_C9, minT_C9, deltaT_C9, minP_C9, deltaP_C9, dimT_C9, dimP_C9]
  rw [rOf_momC9_lt4 i h, thetaOf_momC9_lt4 i h, phiOf_momC9_lt4 i h]
  unfold axisIndex
  rw [if_neg (by norm_num : ¬(101 / 500 : ℝ) = 0),
    if_neg (by positivity : ¬(101 * Real.pi / 1000 : ℝ) = 0),
    if_neg (by positivity : ¬(101 * Real.pi / 3000 : ℝ) = 0)]
  rw [show ((1:ℝ) - 1) / (101 / 500) = 0 by norm_num,
    show ((0:ℝ) - 0) / (101 * Real.pi / 1000) = 0 by norm_num,
    show ((0:ℝ) - 0) / (101 * Real.pi / 3000) = 0 by norm_num]
  rw [Int.floor_zero]
  rfl

lemma floor_500_101 : ⌊(500 / 101 : ℝ)⌋ = 4 := by
  rw [Int.floor_eq_iff]
  constructor <;> norm_num

lemma binIdxC9_4 : binIndexOf momC9 0 5 4 = some 124 := by
  unfold binIndexOf
  rw [minR_C9, deltaR_C9, minT_C9, deltaT_C9, minP_C9, deltaP_C9, dimT_C9, dimP_C9]
  rw [rOf_momC9_4, thetaOf_momC9_4, phiOf_momC9_4]
  unfold axisIndex
  rw [if_neg (by norm_num : ¬(101 / 500 : ℝ) = 0),
    if_neg (by positivity : ¬(101 * Real.pi / 1000 : ℝ) = 0),
    if_neg (by positivity : ¬(101 * Real.pi / 3000 : ℝ) = 0)]
  rw [show ((2:ℝ) - 1) / (101 / 500) = 500 / 101 by norm_num,
    show (Real.pi / 2 - 0) / (101 * Real.pi / 1000) = 500 / 101 from by
      rw [sub_zero]
      field_simp
      ring,
    show (Real.pi / 6 - 0) / (101 * Real.pi / 3000) = 500 / 101 from by
      rw [sub_zero]
      field_simp
      ring]
  rw [floor_500_101]
  rfl

lemma omega_packetA : omegaOf packetA = 0 := by
  unfold omegaOf
  rw [packetA_totalMomentumNorm, packetA_totalWeight, packetA_newMomentumNorm]
  rw [show (4:ℝ) / (4 * 1) = 1 by norm_num]
  exact Real.arccos_one

lemma e1_packetA : e1of packetA = ⟨1, 0, 0⟩ := by
  unfold e1of
  rw [packetA_totalMomentum, packetA_totalMomentumNorm]
  refine V3.ext ?_ ?_ ?_ <;> norm_num

/-- On a saturated packet (four equal particles of weight one) the merge
returns two copies of the same particle with weight two, for any bin
direction: `sin ω = 0` eliminates `e2`. -/
lemma mergePacket_packetA (d : V3) :
    mergePacket packetA d = ((⟨1, 0, 0⟩, 2), (⟨1, 0, 0⟩, 2)) := by
  unfold mergePacket
  rw [omega_packetA, Real.sin_zero, Real.cos_zero, packetA_newMomentumNorm,
    packetA_totalWeight, e1_packetA]
  refine Prod.ext (Prod.ext (V3.ext ?_ ?_ ?_) ?_) (Prod.ext (V3.ext ?_ ?_ ?_) ?_) <;>
    dsimp only <;> norm_num

lemma foldl_mergeOneBin_skip (c : List V3) (starts counts sorted : List ℕ) :
    ∀ (l : List (ℕ × ℕ)) (s : MergeState),
      (∀ pr ∈ l, counts.getD pr.1 0 < 4) →
      l.foldl (mergeOneBin c starts counts sorted) s = s := by
  intro l
  induction l with
  | nil => intro s _; rfl
  | cons a t ih =>
    intro s h
    rw [List.foldl_cons]
    have ha : counts.getD a.1 0 < 4 := h a (List.mem_cons_self a t)
    rw [show mergeOneBin c starts counts sorted s a = s from by
      unfold mergeOneBin; rw [if_neg (by omega)]]
    exact ih s fun pr hpr => h pr (List.mem_cons_of_mem a hpr)

lemma mergeBinsC9 (c : List V3) :
    mergeBins c (cellStarts (bumpCounts [0, 0, 0, 0, 124]))
      (scatterFold [0, 0, 0, 0, 124] 0 (cellStarts (bumpCounts [0, 0, 0, 0, 124]))).2
      (scatterFold [0, 0, 0, 0, 124] 0 (cellStarts (bumpCounts [0, 0, 0, 0, 124]))).1
      5 5 5 ⟨momC9, wgtC9, keysC9⟩ =
    ⟨momC9, [2, 2, 1, 1, 1], [0, -1, -1, -1, 0]⟩ := by
  have hsorted : (scatterFold [0, 0, 0, 0, 124] 0
      (cellStarts (bumpCounts [0, 0, 0, 0, 124]))).1 = [0, 1, 2, 3, 4] := by decide
  have hstart0 : (cellStarts (bumpCounts [0, 0, 0, 0, 124])).getD 0 0 = 0 := by decide
  have hcnt0 : (scatterFold [0, 0, 0, 0, 124] 0
      (cellStarts (bumpCounts [0, 0, 0, 0, 124]))).2.getD 0 0 = 4 := by decide
  have hsplit : binPairs 5 5 5 = (0, 0) :: (binPairs 5 5 5).tail := by decide
  have hrest : ∀ pr ∈ (binPairs 5 5 5).tail,
      (scatterFold [0, 0, 0, 0, 124] 0
        (cellStarts (bumpCounts [0, 0, 0, 0, 124]))).2.getD pr.1 0 < 4 := by decide
  unfold mergeBins
  rw [hsplit, List.foldl_cons]
  rw [foldl_mergeOneBin_skip c _ _ _ (binPairs 5 5 5).tail _ hrest]
  unfold mergeOneBin
  dsimp only
  rw [if_pos (le_of_eq hcnt0.symm)]
  rw [hcnt0, show (4:ℕ) / 4 = 1 from rfl, show List.range 1 = [0] from rfl]
  simp only [List.foldl_cons, List.foldl_nil]
  rw [hstart0, hsorted]
  unfold mergePacketAt
  dsimp only
  rw [show (fun k : Fin 4 =>
      (momC9.getD (([0, 1, 2, 3, 4] : List ℕ).getD (0 + 0 * 4 + k.val) 0) ⟨0, 0, 0⟩,
       wgtC9.getD (([0, 1, 2, 3, 4] : List ℕ).getD (0 + 0 * 4 + k.val) 0) 0)) = packetA from by
    funext k
    fin_cases k <;> rfl]
  rw [mergePacket_packetA]
  rfl

lemma runC9 : mergingVranicRun 5 5 5 0 0 5 momC9 wgtC9 keysC9 =
    some ⟨momC9, [2, 2, 1, 1, 1], [0, -1, -1, -1, 0]⟩ := by
  unfold mergingVranicRun
  rw [if_pos (by norm_num : (0:ℕ) < 5 - 0)]
  have hidx : collectIdx ((List.range (5 - 0)).map fun ip =>
      binIndexOf momC9 0 (5 - 0) (0 + ip)) = some [0, 0, 0, 0, 124] := by
    rw [show (5:ℕ) - 0 = 5 from rfl, show List.range 5 = [0, 1, 2, 3, 4] from rfl]
    simp only [List.map_cons, List.map_nil]
    rw [show (0:ℕ) + 0 = 0 from rfl, show (0:ℕ) + 1 = 1 from rfl,
      show (0:ℕ) + 2 = 2 from rfl, show (0:ℕ) + 3 = 3 from rfl,
      show (0:ℕ) + 4 = 4 from rfl]
    rw [binIdxC9_lt4 0 (by norm_num), binIdxC9_lt4 1 (by norm_num),
      binIdxC9_lt4 2 (by norm_num), binIdxC9_lt4 3 (by norm_num), binIdxC9_4]
    rfl
  rw [hidx]
  dsimp only
  rw [show (5:ℕ) - 0 = 5 from rfl]
  rw [dimR_C9, dimT_C9, dimP_C9]
  exact congrArg some (mergeBinsC9 _)

/-- Claim C9, counterexample.  Particle 1 enters the run with
`cell_keys = -1` (dead), yet the merger bins it, merges it into a packet
and overwrites its weight (1 becomes 2): dead particles are not ignored. -/
theorem mergingVranic_dead_particle_not_ignored :
    keysC9.getD 1 0 = -1 ∧
    (mergingVranicRun 5 5 5 0 0 5 momC9 wgtC9 keysC9).map (fun s => s.wgt.getD 1 0) ≠
      some (wgtC9.getD 1 0) := by
  constructor
  · rfl
  · rw [runC9]
    rw [show (Option.map (fun s => s.wgt.getD 1 0)
        (some (⟨momC9, [2, 2, 1, 1, 1], [0, -1, -1, -1, 0]⟩ : MergeState))) = some (2:ℝ) from rfl]
    rw [show wgtC9.getD 1 0 = (1:ℝ) from rfl]
    simp only [ne_eq, Option.some.injEq]
    norm_num

/-! ### Monte-Carlo radiation kernel (RadiationMonteCarlo.cpp)

The radiation tables and thresholds are external read-only collaborators
(spec sections 4.2 and 6); their query functions are fields of the
parameter record below, consumed exactly where the source calls them. -/

/-- A macro-photon appended to `new_photons_`.  Position components beyond
`nDim` are left uninitialised by the source (`createParticles` slots); they
are modelled as 0.  `chi`/`tau` are `none` when the photon species lacks
those columns. -/
structure Photon where
  pos : V3
  mom : V3
  wgt : ℝ
  charge : ℤ
  chi : Option ℝ
  tau : Option ℝ

/-- Parameters and table contract of the radiation kernel. -/
structure RadParams where
  chiDiscMin : ℝ
  chiContMin : ℝ
  epsTau : ℝ
  dt : ℝ
  maxIter : ℕ
  gammaThreshold : ℝ
  sampling : ℕ
  photonSpecies : Bool
  nDim : ℕ
  hasChi : Bool
  hasTau : Bool
  yield : ℝ → ℝ → ℝ
  ridgers : ℝ → ℝ → ℝ
  randomPhotonChi : ℝ → ℝ → ℝ

/-- `gammaph = photon_chi / particle_chi * (gamma - 1)`
(RadiationMonteCarlo.cpp:450-454), with the photon chi drawn from the
table contract. -/
def gammaPhoton (par : RadParams) (chi gamma u : ℝ) : ℝ :=
  par.randomPhotonChi chi u / chi * (gamma - 1)

/-- The momentum-conserving recoil `p -= p * gammaph / sqrt(gamma^2-1)`
(RadiationMonteCarlo.cpp:463-466). -/
def recoilMomentum (par : RadParams) (chi gamma : ℝ) (p : V3) (u : ℝ) : V3 :=
  ⟨p.x - p.x * (gammaPhoton par chi gamma u / Real.sqrt (gamma * gamma - 1)),
   p.y - p.y * (gammaPhoton par chi gamma u / Real.sqrt (gamma * gamma - 1)),
   p.z - p.z * (gammaPhoton par chi gamma u / Real.sqrt (gamma * gamma - 1))⟩

/-- One appended macro-photon (RadiationMonteCarlo.cpp:522-551): position
copied per dimension, momentum along the post-recoil particle momentum
with magnitude `gammaph`, weight `weight * inv_radiation_photon_sampling_`,
charge 0. -/
def photonOf (par : RadParams) (chi gamma : ℝ) (pos p : V3) (w u : ℝ) : Photon :=
  { pos := ⟨pos.x, if 1 < par.nDim then pos.y else 0, if 2 < par.nDim then pos.z else 0⟩,
    mom := ⟨gammaPhoton par chi gamma u * (recoilMomentum par chi gamma p u).x *
        (1 / normV (recoilMomentum par chi gamma p u)),
      gammaPhoton par chi gamma u * (recoilMomentum par chi gamma p u).y *
        (1 / normV (recoilMomentum par chi gamma p u)),
      gammaPhoton par chi gamma u * (recoilMomentum par chi gamma p u).z *
        (1 / normV (recoilMomentum par chi gamma p u))⟩,
    wgt := w * (1 / par.sampling),
    charge := 0,
    chi := if par.hasChi then some (par.randomPhotonChi chi u) else none,
    tau := if par.hasTau then some (-1) else none }

/-- `RadiationMonteCarlo::photonEmission` (RadiationMonteCarlo.cpp:422-566).
Returns the emitting particle's new momentum, the photons appended to
`new_photons_`, and the scalar radiated energy returned to the caller.
The recoil (lines 463-466) is applied before the macro-photon momentum is
read (lines 517-538), as in the source. -/
def photonEmission (par : RadParams) (chi gamma : ℝ) (pos p : V3) (w u : ℝ) :
    V3 × List Photon × ℝ :=
  if par.photonSpecies = true ∧ par.gammaThreshold ≤ gammaPhoton par chi gamma u then
    (recoilMomentum par chi gamma p u,
     List.replicate par.sampling (photonOf par chi gamma pos p w u), 0)
  else
    (recoilMomentum par chi gamma p u, [],
     w * (gamma - Real.sqrt (1 + dotV (recoilMomentum par chi gamma p u)
         (recoilMomentum par chi gamma p u))))

lemma normV_scaled (F : ℝ) (hF : 0 ≤ 1 - F) (a b c : ℝ) :
    Real.sqrt ((a - a * F) * (a - a * F) + (b - b * F) * (b - b * F) +
      (c - c * F) * (c - c * F)) = (1 - F) * Real.sqrt (a * a + b * b + c * c) := by
  rw [show (a - a * F) * (a - a * F) + (b - b * F) * (b - b * F) +
      (c - c * F) * (c - c * F) = (1 - F) ^ 2 * (a * a + b * b + c * c) from by ring]
  rw [Real.sqrt_mul (sq_nonneg _), Real.sqrt_sq hF]

lemma normV_dilated (g t : ℝ) (hg : 0 ≤ g) (ht : 0 ≤ t) (v : V3) :
    normV ⟨g * v.x * t, g * v.y * t, g * v.z * t⟩ = g * t * normV v := by
  unfold normV dotV
  rw [show g * v.x * t * (g * v.x * t) + g * v.y * t * (g * v.y * t) +
      g * v.z * t * (g * v.z * t) = (g * t) ^ 2 * (v.x * v.x + v.y * v.y + v.z * v.z) from by
    ring]
  rw [Real.sqrt_mul (sq_nonneg _), Real.sqrt_sq (by positivity)]

/-- Facts about the recoil step when the caller invariant
`gamma = sqrt(1+p.p)` holds, `gamma > 1`, and the sampled photon chi lies
in `[0, particle_chi]`: the photon gamma is nonnegative, the recoil factor
is below one, and the recoil rescales the momentum norm by `1 - factor`. -/
lemma recoil_facts (par : RadParams) (chi gamma : ℝ) (p : V3) (u : ℝ)
    (hcons : gamma = Real.sqrt (1 + dotV p p))
    (hg : 1 < gamma)
    (hchi : 0 < chi)
    (hpc0 : 0 ≤ par.randomPhotonChi chi u)
    (hpcle : par.randomPhotonChi chi u ≤ chi) :
    0 ≤ gammaPhoton par chi gamma u ∧
    normV p = Real.sqrt (gamma * gamma - 1) ∧
    0 < normV p ∧
    normV (recoilMomentum par chi gamma p u) =
      (1 - gammaPhoton par chi gamma u / Real.sqrt (gamma * gamma - 1)) * normV p ∧
    0 < 1 - gammaPhoton par chi gamma u / Real.sqrt (gamma * gamma - 1) := by
  have hppnn : 0 ≤ dotV p p := by
    unfold dotV
    nlinarith [sq_nonneg p.x, sq_nonneg p.y, sq_nonneg p.z]
  have hpp : dotV p p = gamma * gamma - 1 := by
    have h2 := Real.mul_self_sqrt (by linarith : (0:ℝ) ≤ 1 + dotV p p)
    rw [← hcons] at h2
    linarith
  have hg0 : (0:ℝ) < gamma * gamma - 1 := by nlinarith
  have hs : 0 < Real.sqrt (gamma * gamma - 1) := Real.sqrt_pos.mpr hg0
  have hgph0 : 0 ≤ gammaPhoton par chi gamma u := by
    unfold gammaPhoton
    have h3 : 0 ≤ par.randomPhotonChi chi u / chi := div_nonneg hpc0 hchi.le
    nlinarith
  have hgple : gammaPhoton par chi gamma u ≤ gamma - 1 := by
    unfold gammaPhoton
    have hdle : par.randomPhotonChi chi u / chi ≤ 1 := (div_le_one hchi).mpr hpcle
    nlinarith [div_nonneg hpc0 hchi.le]
  have hnp : normV p = Real.sqrt (gamma * gamma - 1) := by
    unfold normV
    rw [hpp]
  have hlt : gamma - 1 < Real.sqrt (gamma * gamma - 1) := by
    have h4 : (gamma - 1) ^ 2 < gamma * gamma - 1 := by nlinarith
    calc gamma - 1 = Real.sqrt ((gamma - 1) ^ 2) := (Real.sqrt_sq (by linarith)).symm
    _ < Real.sqrt (gamma * gamma - 1) := Real.sqrt_lt_sqrt (sq_nonneg _) h4
  have hf1 : gammaPhoton par chi gamma u / Real.sqrt (gamma * gamma - 1) < 1 := by
    rw [div_lt_one hs]
    linarith
  refine ⟨hgph0, hnp, by rw [hnp]; exact hs, ?_, by linarith⟩
  unfold recoilMomentum normV dotV
  exact normV_scaled _ (by linarith) p.x p.y p.z

/-- Claim C5.  Photon-emission outcome dichotomy: when a photon species is
attached and the photon gamma reaches the threshold, exactly `sampling`
photons are appended, each with weight `w/sampling`, charge 0, the
particle's position and a momentum collinear with the particle's momentum
of magnitude `gammaph`, and 0 is returned; otherwise nothing is appended
and `w*(gamma - gamma_new)` is returned, `gamma_new` the Lorentz factor of
the post-recoil momentum. -/
theorem photonEmission_dichotomy (par : RadParams) (chi gamma : ℝ) (pos p : V3) (w u : ℝ)
    (hdim : 2 < par.nDim)
    (hcons : gamma = Real.sqrt (1 + dotV p p))
    (hg : 1 < gamma)
    (hchi : 0 < chi)
    (hpc0 : 0 ≤ par.randomPhotonChi chi u)
    (hpcle : par.randomPhotonChi chi u ≤ chi) :
    ((par.photonSpecies = true ∧ par.gammaThreshold ≤ gammaPhoton par chi gamma u) →
      (photonEmission par chi gamma pos p w u).2.1.length = par.sampling ∧
      (∀ ph ∈ (photonEmission par chi gamma pos p w u).2.1,
        ph.wgt = w / par.sampling ∧ ph.charge = 0 ∧ ph.pos = pos ∧
        normV ph.mom = gammaPhoton par chi gamma u ∧
        ∃ c : ℝ, 0 ≤ c ∧ ph.mom = ⟨c * p.x, c * p.y, c * p.z⟩) ∧
      (photonEmission par chi gamma pos p w u).2.2 = 0) ∧
    (¬(par.photonSpecies = true ∧ par.gammaThreshold ≤ gammaPhoton par chi gamma u) →
      (photonEmission par chi gamma pos p w u).2.1 = [] ∧
      (photonEmission par chi gamma pos p w u).2.2 =
        w * (gamma - Real.sqrt (1 + dotV (photonEmission par chi gamma pos p w u).1
          (photonEmission par chi gamma pos p w u).1))) := by
  obtain ⟨hgph0, hnp, hnp0, hrec, hf⟩ := recoil_facts par chi gamma p u hcons hg hchi hpc0 hpcle
  have hnr0 : 0 < normV (recoilMomentum par chi gamma p u) := by
    rw [hrec]
    exact mul_pos hf hnp0
  constructor
  · intro hcond
    unfold photonEmission
    rw [if_pos hcond]
    refine ⟨List.length_replicate _ _, ?_, rfl⟩
    intro ph hph
    rw [List.eq_of_mem_replicate hph]
    refine ⟨mul_one_div w _, rfl, ?_, ?_, ?_⟩
    · show (⟨pos.x, if 1 < par.nDim then pos.y else 0,
          if 2 < par.nDim then pos.z else 0⟩ : V3) = pos
      rw [if_pos (by omega : 1 < par.nDim), if_pos hdim]
    · show normV ⟨gammaPhoton par chi gamma u * (recoilMomentum par chi gamma p u).x *
            (1 / normV (recoilMomentum par chi gamma p u)), _, _⟩ = _
      rw [normV_dilated _ _ hgph0 (by positivity) _]
      field_simp
    · refine ⟨gammaPhoton par chi gamma u *
        (1 - gammaPhoton par chi gamma u / Real.sqrt (gamma * gamma - 1)) *
        (1 / normV (recoilMomentum par chi gamma p u)),
        mul_nonneg (mul_nonneg hgph0 hf.le) (by positivity), ?_⟩
      show (⟨gammaPhoton par chi gamma u * (recoilMomentum par chi gamma p u).x *
          (1 / normV (recoilMomentum par chi gamma p u)), _, _⟩ : V3) = _
      refine V3.ext ?_ ?_ ?_ <;>
      · show gammaPhoton par chi gamma u * _ * (1 / normV (recoilMomentum par chi gamma p u)) = _
        unfold recoilMomentum
        dsimp only
        ring
  · intro hcond
    unfold photonEmission
    rw [if_neg hcond]
    exact ⟨rfl, rfl⟩

/-- Claim C7.  Every appended macro-photon's momentum equals
`gammaph` times the unit vector of the emitting particle's pre-recoil
momentum (parallel, not antiparallel): the recoil factor is below one, so
normalising the post-recoil momentum recovers the pre-recoil direction. -/
theorem photonEmission_direction (par : RadParams) (chi gamma : ℝ) (pos p : V3) (w u : ℝ)
    (hcons : gamma = Real.sqrt (1 + dotV p p))
    (hg : 1 < gamma)
    (hchi : 0 < chi)
    (hpc0 : 0 ≤ par.randomPhotonChi chi u)
    (hpcle : par.randomPhotonChi chi u ≤ chi) :
    ∀ ph ∈ (photonEmission par chi gamma pos p w u).2.1,
      ph.mom = ⟨gammaPhoton par chi gamma u * (p.x / normV p),
                gammaPhoton par chi gamma u * (p.y / normV p),
                gammaPhoton par chi gamma u * (p.z / normV p)⟩ ∧
      0 ≤ gammaPhoton par chi gamma u := by
  obtain ⟨hgph0, hnp, hnp0, hrec, hf⟩ := recoil_facts par chi gamma p u hcons hg hchi hpc0 hpcle
  have hnr : normV (recoilMomentum par chi gamma p u) =
      (1 - gammaPhoton par chi gamma u / Real.sqrt (gamma * gamma - 1)) * normV p := hrec
  intro ph hph
  unfold photonEmission at hph
  by_cases hcond : par.photonSpecies = true ∧
      par.gammaThreshold ≤ gammaPhoton par chi gamma u
  · rw [if_pos hcond] at hph
    rw [List.eq_of_mem_replicate hph]
    refine ⟨?_, hgph0⟩
    show (⟨gammaPhoton par chi gamma u * (recoilMomentum par chi gamma p u).x *
        (1 / normV (recoilMomentum par chi gamma p u)), _, _⟩ : V3) = _
    rw [hnr]
    refine V3.ext ?_ ?_ ?_ <;>
    · show gammaPhoton par chi gamma u * _ *
        (1 / ((1 - gammaPhoton par chi gamma u / Real.sqrt (gamma * gamma - 1)) * normV p)) = _
      unfold recoilMomentum
      dsimp only
      rw [show ∀ a b : ℝ, a - a * b = a * (1 - b) from fun a b => by ring]
      field_simp
      ring
  · rw [if_neg hcond] at hph
    exact absurd hph (List.not_mem_nil ph)

/-- A concrete parameter record: photon species attached, threshold 0,
sampling 2, tables with positive yield and half-chi photon sampling. -/
def parW : RadParams :=
  { chiDiscMin := 1, chiContMin := 1 / 100, epsTau := 1e-100, dt := 1, maxIter := 10,
    gammaThreshold := 0, sampling := 2, photonSpecies := true, nDim := 3,
    hasChi := true, hasTau := true,
    yield := fun _ _ => 1, ridgers := fun _ _ => 0,
    randomPhotonChi := fun c _ => c / 2 }

lemma parW_cons : (5 / 4 : ℝ) = Real.sqrt (1 + dotV ⟨3 / 4, 0, 0⟩ ⟨3 / 4, 0, 0⟩) := by
  rw [show 1 + dotV ⟨3 / 4, 0, 0⟩ ⟨3 / 4, 0, 0⟩ = (5 / 4 : ℝ) * (5 / 4) from by
    unfold dotV; norm_num]
  exact (Real.sqrt_mul_self (by norm_num)).symm

lemma parW_cond : parW.photonSpecies = true ∧
    parW.gammaThreshold ≤ gammaPhoton parW 1 (5 / 4) 0 := by
  refine ⟨rfl, ?_⟩
  show (0:ℝ) ≤ (1 / 2) / 1 * (5 / 4 - 1)
  norm_num

/-- Witness for claim C5 at a concrete emission: particle of momentum
(3/4,0,0), gamma 5/4, chi 1, photon chi 1/2, sampling 2. -/
theorem photonEmission_dichotomy_witness :
    2 < parW.nDim ∧ (5 / 4 : ℝ) = Real.sqrt (1 + dotV ⟨3 / 4, 0, 0⟩ ⟨3 / 4, 0, 0⟩) ∧
    (1:ℝ) < 5 / 4 ∧ (0:ℝ) < 1 ∧ 0 ≤ parW.randomPhotonChi 1 0 ∧
    parW.randomPhotonChi 1 0 ≤ 1 ∧
    (photonEmission parW 1 (5 / 4) ⟨0, 0, 0⟩ ⟨3 / 4, 0, 0⟩ 1 0).2.1.length = parW.sampling ∧
    (photonEmission parW 1 (5 / 4) ⟨0, 0, 0⟩ ⟨3 / 4, 0, 0⟩ 1 0).2.2 = 0 := by
  have hpc0 : (0:ℝ) ≤ parW.randomPhotonChi 1 0 := by
    show (0:ℝ) ≤ 1 / 2
    norm_num
  have hpcle : parW.randomPhotonChi 1 0 ≤ 1 := by
    show (1 / 2 : ℝ) ≤ 1
    norm_num
  have happ := photonEmission_dichotomy parW 1 (5 / 4) ⟨0, 0, 0⟩ ⟨3 / 4, 0, 0⟩ 1 0
    (by norm_num [parW]) parW_cons (by norm_num) (by norm_num) hpc0 hpcle
  obtain ⟨hlen, _, hrad⟩ := happ.1 parW_cond
  exact ⟨by norm_num [parW], parW_cons, by norm_num, by norm_num, hpc0, hpcle, hlen, hrad⟩

/-- Witness for claim C7 at the same concrete emission: the appended photon
is parallel to the pre-recoil momentum with magnitude `gammaph`. -/
theorem photonEmission_direction_witness :
    (5 / 4 : ℝ) = Real.sqrt (1 + dotV ⟨3 / 4, 0, 0⟩ ⟨3 / 4, 0, 0⟩) ∧
    (1:ℝ) < 5 / 4 ∧ (0:ℝ) < 1 ∧ 0 ≤ parW.randomPhotonChi 1 0 ∧
    parW.randomPhotonChi 1 0 ≤ 1 ∧
    (photonOf parW 1 (5 / 4) ⟨0, 0, 0⟩ ⟨3 / 4, 0, 0⟩ 1 0).mom =
      ⟨gammaPhoton parW 1 (5 / 4) 0 * (3 / 4 / normV ⟨3 / 4, 0, 0⟩),
       gammaPhoton parW 1 (5 / 4) 0 * (0 / normV ⟨3 / 4, 0, 0⟩),
       gammaPhoton parW 1 (5 / 4) 0 * (0 / normV ⟨3 / 4, 0, 0⟩)⟩ ∧
    0 ≤ gammaPhoton parW 1 (5 / 4) 0 := by
  have hpc0 : (0:ℝ) ≤ parW.randomPhotonChi 1 0 := by
    show (0:ℝ) ≤ 1 / 2
    norm_num
  have hpcle : parW.randomPhotonChi 1 0 ≤ 1 := by
    show (1 / 2 : ℝ) ≤ 1
    norm_num
  have hmem : photonOf parW 1 (5 / 4) ⟨0, 0, 0⟩ ⟨3 / 4, 0, 0⟩ 1 0 ∈
      (photonEmission parW 1 (5 / 4) ⟨0, 0, 0⟩ ⟨3 / 4, 0, 0⟩ 1 0).2.1 := by
    unfold photonEmission
    rw [if_pos parW_cond]
    exact List.mem_replicate.mpr ⟨by norm_num [parW], rfl⟩
  have happ := photonEmission_direction parW 1 (5 / 4) ⟨0, 0, 0⟩ ⟨3 / 4, 0, 0⟩ 1 0
    parW_cons (by norm_num) (by norm_num) hpc0 hpcle _ hmem
  exact ⟨parW_cons, by norm_num, by norm_num, hpc0, hpcle, happ.1, happ.2⟩

/-- Cross product, componentwise. -/
def crossV (a b : V3) : V3 :=
  ⟨a.y * b.z - a.z * b.y, a.z * b.x - a.x * b.z, a.x * b.y - a.y * b.x⟩

/-- Modelled from the spec: `Radiation::computeParticleChi`, the shared
helper computing the Lorentz-invariant quantum parameter from
(q/m², p, γ, E, B) "by the standard formula γ²E² − (p·E)² + 2γ(p×B)·E −
(p×B)² etc." (spec section 4.3 step 2).  The helper lives in the
`Radiation` base class, whose file is not under src/; its value only
selects branches in the claims below. -/
def computeParticleChi (qm2 : ℝ) (p : V3) (gamma : ℝ) (E B : V3) : ℝ :=
  qm2 * Real.sqrt (gamma * gamma * dotV E E - dotV p E * dotV p E +
    2 * gamma * dotV (crossV p B) E - dotV (crossV p B) (crossV p B))

/-- Private per-particle state of the Monte-Carlo manager
(RadiationMonteCarlo.cpp:204-361). -/
structure PPState where
  p : V3
  tau : ℝ
  localIt : ℝ
  mcIt : ℕ
  photons : List Photon
  radiated : ℝ
  drawIdx : ℕ

/-- The optical-depth drawing loop `while (tau <= eps) tau = -log(1-U)`
(RadiationMonteCarlo.cpp:242-257), fuelled; `u` is the uniform stream and
the second component the next stream position. -/
def armLoop (par : RadParams) (u : ℕ → ℝ) : ℕ → ℝ → ℕ → ℝ × ℕ
  | 0, tau, idx => (tau, idx)
  | fuel + 1, tau, idx =>
    if tau ≤ par.epsTau then armLoop par u fuel (-Real.log (1 - u idx)) (idx + 1)
    else (tau, idx)

/-- The Monte-Carlo manager loop for one particle
(RadiationMonteCarlo.cpp:213-359), fuelled by at least
`max_monte_carlo_iterations + 2` steps (each iteration increments `mc_it_nb`
or ends the local time). -/
def mcLoop (par : RadParams) (u : ℕ → ℝ) (qm2 : ℝ) (pos : V3) (w : ℝ) (E B : V3) :
    ℕ → PPState → PPState
  | 0, s => s
  | fuel + 1, s =>
    if s.localIt < par.dt ∧ s.mcIt < par.maxIter then
      if Real.sqrt (1 + dotV s.p s.p) = 1 then s
      else
        let gamma := Real.sqrt (1 + dotV s.p s.p)
        let chi := computeParticleChi qm2 s.p gamma E B
        let armed :=
          if chi > par.chiDiscMin ∧ s.tau ≤ par.epsTau then
            armLoop par u (fuel + 1) s.tau s.drawIdx
          else (s.tau, s.drawIdx)
        if armed.1 > par.epsTau then
          let temp := par.yield chi gamma
          let emTime := min (armed.1 / temp) (par.dt - s.localIt)
          let tau2 := armed.1 - temp * emTime
          if tau2 ≤ par.epsTau then
            let em := photonEmission par chi gamma pos s.p w (u armed.2)
            mcLoop par u qm2 pos w E B fuel
              { p := em.1, tau := -1, localIt := s.localIt + emTime,
                mcIt := s.mcIt + 1, photons := s.photons ++ em.2.1,
                radiated := s.radiated + em.2.2, drawIdx := armed.2 + 1 }
          else
            mcLoop par u qm2 pos w E B fuel
              { s with
                tau := tau2
                localIt := s.localIt + emTime
                mcIt := s.mcIt + 1
                drawIdx := armed.2 }
        else if chi ≤ par.chiDiscMin ∧ armed.1 ≤ par.epsTau ∧
            chi > par.chiContMin ∧ gamma > 1 then
          let emTime := par.dt - s.localIt
          let contE := par.ridgers chi emTime
          let temp := contE * gamma / (gamma * gamma - 1)
          mcLoop par u qm2 pos w E B fuel
            { s with
              p := ⟨s.p.x - temp * s.p.x, s.p.y - temp * s.p.y, s.p.z - temp * s.p.z⟩
              tau := armed.1
              radiated := s.radiated + w * (gamma - Real.sqrt (1 +
                dotV ⟨s.p.x - temp * s.p.x, s.p.y - temp * s.p.y, s.p.z - temp * s.p.z⟩
                  ⟨s.p.x - temp * s.p.x, s.p.y - temp * s.p.y, s.p.z - temp * s.p.z⟩))
              localIt := par.dt
              drawIdx := armed.2 }
        else
          mcLoop par u qm2 pos w E B fuel
            { s with
              tau := armed.1
              localIt := par.dt
              drawIdx := armed.2 }
    else s

/-- Full per-particle processing: the manager loop from a fresh local
state (RadiationMonteCarlo.cpp:207-210). -/
def radiationOne (par : RadParams) (u : ℕ → ℝ) (qm2 : ℝ) (pos : V3) (w : ℝ)
    (E B : V3) (p0 : V3) (tau0 : ℝ) (drawIdx : ℕ) : PPState :=
  mcLoop par u qm2 pos w E B (par.maxIter + 2)
    { p := p0, tau := tau0, localIt := 0, mcIt := 0, photons := [],
      radiated := 0, drawIdx := drawIdx }

/-- Result of `RadiationMonteCarlo::operator()`. -/
structure RadResult where
  mom : List V3
  tau : List ℝ
  chi : List ℝ
  photons : List Photon
  radiated : ℝ

/-- The main particle loop of `RadiationMonteCarlo::operator()`
(RadiationMonteCarlo.cpp:204-361), sharing one uniform stream. -/
def radiationMainLoop (par : RadParams) (u : ℕ → ℝ) (oneOverMassSq : ℝ)
    (charge : List ℤ) (pos : List V3) (wgt : List ℝ) (E B : List V3)
    (istart iend : ℕ) (mom : List V3) (tau : List ℝ) :
    List V3 × List ℝ × List Photon × ℝ × ℕ :=
  (List.range (iend - istart)).foldl
    (fun st ip =>
      ((st.1.set (istart + ip)
          (radiationOne par u ((charge.getD (istart + ip) 0 : ℤ) * oneOverMassSq)
            (pos.getD (istart + ip) ⟨0, 0, 0⟩) (wgt.getD (istart + ip) 0)
            (E.getD (istart + ip) ⟨0, 0, 0⟩) (B.getD (istart + ip) ⟨0, 0, 0⟩)
            (st.1.getD (istart + ip) ⟨0, 0, 0⟩) (st.2.1.getD (istart + ip) 0)
            st.2.2.2.2).p),
       (st.2.1.set (istart + ip)
          (radiationOne par u ((charge.getD (istart + ip) 0 : ℤ) * oneOverMassSq)
            (pos.getD (istart + ip) ⟨0, 0, 0⟩) (wgt.getD (istart + ip) 0)
            (E.getD (istart + ip) ⟨0, 0, 0⟩) (B.getD (istart + ip) ⟨0, 0, 0⟩)
            (st.1.getD (istart + ip) ⟨0, 0, 0⟩) (st.2.1.getD (istart + ip) 0)
            st.2.2.2.2).tau),
       st.2.2.1 ++
         (radiationOne par u ((charge.getD (istart + ip) 0 : ℤ) * oneOverMassSq)
            (pos.getD (istart + ip) ⟨0, 0, 0⟩) (wgt.getD (istart + ip) 0)
            (E.getD (istart + ip) ⟨0, 0, 0⟩) (B.getD (istart + ip) ⟨0, 0, 0⟩)
            (st.1.getD (istart + ip) ⟨0, 0, 0⟩) (st.2.1.getD (istart + ip) 0)
            st.2.2.2.2).photons,
       st.2.2.2.1 +
         (radiationOne par u ((charge.getD (istart + ip) 0 : ℤ) * oneOverMassSq)
            (pos.getD (istart + ip) ⟨0, 0, 0⟩) (wgt.getD (istart + ip) 0)
            (E.getD (istart + ip) ⟨0, 0, 0⟩) (B.getD (istart + ip) ⟨0, 0, 0⟩)
            (st.1.getD (istart + ip) ⟨0, 0, 0⟩) (st.2.1.getD (istart + ip) 0)
            st.2.2.2.2).radiated,
       (radiationOne par u ((charge.getD (istart + ip) 0 : ℤ) * oneOverMassSq)
            (pos.getD (istart + ip) ⟨0, 0, 0⟩) (wgt.getD (istart + ip) 0)
            (E.getD (istart + ip) ⟨0, 0, 0⟩) (B.getD (istart + ip) ⟨0, 0, 0⟩)
            (st.1.getD (istart + ip) ⟨0, 0, 0⟩) (st.2.1.getD (istart + ip) 0)
            st.2.2.2.2).drawIdx))
    (mom, tau, [], 0, 0)

/-- The post-pass recomputing `chi[i]` from the final momenta
(RadiationMonteCarlo.cpp:384-399). -/
def radiationChiPass (oneOverMassSq : ℝ) (charge : List ℤ) (E B : List V3)
    (istart iend : ℕ) (mom : List V3) (chiL : List ℝ) : List ℝ :=
  (List.range (iend - istart)).foldl
    (fun c ip =>
      c.set (istart + ip)
        (computeParticleChi ((charge.getD (istart + ip) 0 : ℤ) * oneOverMassSq)
          (mom.getD (istart + ip) ⟨0, 0, 0⟩)
          (Real.sqrt (1 + dotV (mom.getD (istart + ip) ⟨0, 0, 0⟩)
            (mom.getD (istart + ip) ⟨0, 0, 0⟩)))
          (E.getD (istart + ip) ⟨0, 0, 0⟩) (B.getD (istart + ip) ⟨0, 0, 0⟩)))
    chiL

/-- `RadiationMonteCarlo::operator()` (RadiationMonteCarlo.cpp:52-409):
the Monte-Carlo manager for each particle of `[istart, iend)`, followed by
the chi post-pass. -/
def radiationOperator (par : RadParams) (u : ℕ → ℝ) (oneOverMassSq : ℝ)
    (charge : List ℤ) (pos : List V3) (wgt : List ℝ) (E B : List V3)
    (istart iend : ℕ) (mom : List V3) (tau chiL : List ℝ) : RadResult :=
  { mom := (radiationMainLoop par u oneOverMassSq charge pos wgt E B istart iend mom tau).1,
    tau := (radiationMainLoop par u oneOverMassSq charge pos wgt E B istart iend mom tau).2.1,
    chi := radiationChiPass oneOverMassSq charge E B istart iend
      (radiationMainLoop par u oneOverMassSq charge pos wgt E B istart iend mom tau).1 chiL,
    photons := (radiationMainLoop par u oneOverMassSq charge pos wgt E B istart iend mom tau).2.2.1,
    radiated := (radiationMainLoop par u oneOverMassSq charge pos wgt E B istart iend mom tau).2.2.2.1 }

/-- The optical-depth states admitted by the spec: no emission pending
(`tau ≤ 0`) or emission pending (`tau > ε_τ`). -/
def GoodTau (par : RadParams) (t : ℝ) : Prop := t ≤ 0 ∨ t > par.epsTau

lemma armLoop_good (par : RadParams) (u : ℕ → ℝ)
    (hdraw : ∀ n, par.epsTau < -Real.log (1 - u n)) :
    ∀ (fuel : ℕ) (tau : ℝ) (idx : ℕ), GoodTau par tau →
      GoodTau par (armLoop par u fuel tau idx).1 := by
  intro fuel
  induction fuel with
  | zero => intro tau idx h; exact h
  | succ f ih =>
    intro tau idx h
    simp only [armLoop]
    by_cases hle : tau ≤ par.epsTau
    · rw [if_pos hle]
      exact ih _ _ (Or.inr (hdraw idx))
    · rw [if_neg hle]
      exact h

lemma mcLoop_good (par : RadParams) (u : ℕ → ℝ)
    (hdraw : ∀ n, par.epsTau < -Real.log (1 - u n))
    (qm2 : ℝ) (pos : V3) (w : ℝ) (E B : V3) :
    ∀ (fuel : ℕ) (s : PPState), GoodTau par s.tau →
      GoodTau par (mcLoop par u qm2 pos w E B fuel s).tau := by
  intro fuel
  induction fuel with
  | zero => intro s h; exact h
  | succ f ih =>
    intro s h
    simp only [mcLoop]
    split_ifs with h1 h2 h3 h4 h5 h6 h7 h8 h9
    all_goals first
      | exact ih _ (Or.inl (show (-1:ℝ) ≤ 0 by norm_num))
      | exact ih _ (armLoop_good par u hdraw _ _ _ h)
      | exact ih _ h
      | exact ih _ (Or.inr (not_le.mp (by assumption)))
      | exact h

lemma getD_set_cases (l : List ℝ) : ∀ (k i : ℕ) (v : ℝ),
    (l.set k v).getD i 0 = l.getD i 0 ∨ (l.set k v).getD i 0 = v := by
  induction l with
  | nil => intro k i v; left; rfl
  | cons a t ih =>
    intro k i v
    cases k with
    | zero =>
      cases i with
      | zero => right; rfl
      | succ j => left; rfl
    | succ m =>
      cases i with
      | zero => left; rfl
      | succ j => exact ih m j v

lemma getD_set_good (par : RadParams) (l : List ℝ) (k : ℕ) (v : ℝ)
    (hl : ∀ i, GoodTau par (l.getD i 0)) (hv : GoodTau par v) :
    ∀ i, GoodTau par ((l.set k v).getD i 0) := by
  intro i
  rcases getD_set_cases l k i v with he | he <;> rw [he]
  · exact hl i
  · exact hv

lemma foldl_good_tau (par : RadParams)
    (F : (List V3 × List ℝ × List Photon × ℝ × ℕ) → ℕ →
      (List V3 × List ℝ × List Photon × ℝ × ℕ))
    (hF : ∀ st a, (∀ i, GoodTau par (st.2.1.getD i 0)) →
      ∀ i, GoodTau par ((F st a).2.1.getD i 0)) :
    ∀ (l : List ℕ) st, (∀ i, GoodTau par (st.2.1.getD i 0)) →
      ∀ i, GoodTau par ((l.foldl F st).2.1.getD i 0) := by
  intro l
  induction l with
  | nil => intro st h i; exact h i
  | cons a t ih =>
    intro st h i
    rw [List.foldl_cons]
    exact ih _ (hF st a h) i

/-- Claim C6.  Radiation tau exit invariant: if every stored optical depth
satisfies `tau ≤ 0 ∨ tau > ε_τ` on entry and the drawn optical depths
exceed `ε_τ` (each `-log(1-U)` clears the threshold), then after
`RadiationMonteCarlo::operator()` every particle's stored optical depth
again satisfies `tau ≤ 0 ∨ tau > ε_τ`; the forbidden interval `(0, ε_τ]`
is never occupied. -/
theorem radiation_tau_invariant (par : RadParams) (u : ℕ → ℝ) (oneOverMassSq : ℝ)
    (charge : List ℤ) (pos : List V3) (wgt : List ℝ) (E B : List V3)
    (istart iend : ℕ) (mom : List V3) (tau chiL : List ℝ)
    (hdraw : ∀ n, par.epsTau < -Real.log (1 - u n))
    (h0 : ∀ i, GoodTau par (tau.getD i 0)) :
    ∀ i, GoodTau par ((radiationOperator par u oneOverMassSq charge pos wgt E B
      istart iend mom tau chiL).tau.getD i 0) := by
  unfold radiationOperator radiationMainLoop
  refine foldl_good_tau par _ ?_ _ _ h0
  intro st a hst i
  dsimp only
  refine getD_set_good par st.2.1 (istart + a) _ hst ?_ i
  exact mcLoop_good par u hdraw _ _ _ _ _ _ _ (hst (istart + a))

/-- Witness for claim C6: one particle of momentum (3/4,0,0) and entry
optical depth -1, zero fields, uniform draws 1/2. -/
theorem radiation_tau_invariant_witness :
    (∀ n : ℕ, parW.epsTau < -Real.log (1 - (fun _ : ℕ => (1 / 2 : ℝ)) n)) ∧
    (∀ i, GoodTau parW (([-1] : List ℝ).getD i 0)) ∧
    GoodTau parW ((radiationOperator parW (fun _ => 1 / 2) 1 [1] [⟨0, 0, 0⟩] [1]
      [⟨0, 0, 0⟩] [⟨0, 0, 0⟩] 0 1 [⟨3 / 4, 0, 0⟩] [-1] [0]).tau.getD 0 0) := by
  have hdraw : ∀ n : ℕ, parW.epsTau < -Real.log (1 - (fun _ : ℕ => (1 / 2 : ℝ)) n) := by
    intro n
    show (1e-100 : ℝ) < -Real.log (1 - 1 / 2)
    rw [show (1:ℝ) - 1 / 2 = 2⁻¹ by norm_num, Real.log_inv, neg_neg]
    nlinarith [Real.log_two_gt_d9]
  have h0 : ∀ i, GoodTau parW (([-1] : List ℝ).getD i 0) := by
    intro i
    cases i with
    | zero => exact Or.inl (by norm_num : (-1:ℝ) ≤ 0)
    | succ j => exact Or.inl (le_refl (0:ℝ))
  exact ⟨hdraw, h0,
    radiation_tau_invariant parW (fun _ => 1 / 2) 1 [1] [⟨0, 0, 0⟩] [1]
      [⟨0, 0, 0⟩] [⟨0, 0, 0⟩] 0 1 [⟨3 / 4, 0, 0⟩] [-1] [0] hdraw h0 0⟩

end

end Smilei
